import Mathlib

/-!
Shallow embedding of the Starlord grid-interpolation core (`cystar.pyx`):
the probability primitives, `_locatePoint_`, `_unit_interp3`,
`GridInterpolator.__init__` and `_interp1d` .. `_interp5d` / `interp`.

Doubles are modelled as exact rationals; a query coordinate is a value of
the type `Fl` below, which additionally carries the non-finite doubles
(NaN and the two infinities) that the code tests for with `isfinite`.
The NaN result sentinel of `interp` is modelled by `Option.none`.
-/

/-- Model of a C double as seen by the interpolation code: either one of
the non-finite values that `math.isfinite` rejects, or an exact rational. -/
inductive Fl where
  | nan : Fl
  | posInf : Fl
  | negInf : Fl
  | fin : ℚ → Fl
deriving DecidableEq, Repr

/-- Truncation toward zero, the semantics of the C cast `int(weight)`
in `_locatePoint_`. -/
def ratTrunc (q : ℚ) : ℤ := if 0 ≤ q then ⌊q⌋ else ⌈q⌉

/-! ### Probability primitives (`cy_tools.pyx` / top of `cystar.pyx`)

`uniform_ppf` is pure rational arithmetic and is embedded directly.
`normal_lpdf` calls the C library logarithm in its `sigma > 0` branch;
since `log` of a positive double is finite and its exact value never
influences control flow, the embedding takes the library functions
`log` and the constant pi as parameters. -/

/-- Source: `uniform_ppf(x, xmin, xmax) = xmin + x * (xmax - xmin)`. -/
def uniform_ppf (x xmin xmax : ℚ) : ℚ := xmin + x * (xmax - xmin)

/-- Source: `normal_lpdf` returns NAN when `sigma <= 0`, otherwise
`-(x-mean)**2/(2*sigma*sigma) - .5*log(2*pi*sigma*sigma)`; the C `log`
and the constant `pi` are passed in as parameters of the embedding. -/
def normal_lpdf (logFn : ℚ → ℚ) (piC : ℚ) (x mean sigma : ℚ) : Fl :=
  if sigma ≤ 0 then Fl.nan
  else Fl.fin (-(x - mean)^2 / (2*sigma*sigma) - (1/2) * logFn (2*piC*sigma*sigma))

/-! ### `_locatePoint_` (cystar.pyx lines 207-244) -/

/-- Functional form of the binary-search `while` loop of `_locatePoint_`:
`i = (low+high)//2`, exit when `axis[i] <= point < axis[i+1]`, otherwise
narrow `low` (when `point > axis[i]`) or `high` and repeat.  The loop has
no structural termination measure, so the embedding carries fuel;
`searchGo_succeeds` below shows fuel `high - low` is always enough. -/
def searchGo (p : ℚ) (axis : List ℚ) : ℕ → ℕ → ℕ → Option ℕ
  | 0, _, _ => none
  | fuel+1, low, high =>
    if axis.getD ((low + high) / 2) 0 ≤ p ∧ p < axis.getD ((low + high) / 2 + 1) 0 then
      some ((low + high) / 2)
    else if axis.getD ((low + high) / 2) 0 < p then
      searchGo p axis fuel ((low + high) / 2) high
    else
      searchGo p axis fuel low ((low + high) / 2)

/-- Explicit (non-uniform) branch of `_locatePoint_`: exact-maximum check
(`point == axis[-1]` returns `axLen-2` with weight `1`), bounds check, then
binary search and `weight = (point - axis[i]) / (axis[i+1] - axis[i])`. -/
def locExplicit (p : ℚ) (axis : List ℚ) (axLen : ℕ) : ℤ × ℚ :=
  if p = axis.getD (axis.length - 1) 0 then ((axLen : ℤ) - 2, 1)
  else if p < axis.getD 0 0 ∨ axis.getD (axis.length - 1) 0 < p then (-1, 0)
  else
    match searchGo p axis axis.length 0 (axis.length - 1) with
    | some i => ((i : ℤ), (p - axis.getD i 0) / (axis.getD (i+1) 0 - axis.getD i 0))
    | none => (-1, 0)

/-- Uniform branch of `_locatePoint_`: the axis array is the compact form
`[start, inverseStep, 0]`; the maximum is recomputed as
`axis[0] + (axLen-1)/axis[1]`, the in-range index is the C truncation of
`weight = (point - axis[0]) * axis[1]` and the weight its fractional part. -/
def locUniform (p : ℚ) (axis : List ℚ) (axLen : ℕ) : ℤ × ℚ :=
  if p = axis.getD 0 0 + ((axLen : ℚ) - 1) / axis.getD 1 0 then ((axLen : ℤ) - 2, 1)
  else if p < axis.getD 0 0 ∨ axis.getD 0 0 + ((axLen : ℚ) - 1) / axis.getD 1 0 ≤ p then (-1, 0)
  else (ratTrunc ((p - axis.getD 0 0) * axis.getD 1 0),
        (p - axis.getD 0 0) * axis.getD 1 0 - (ratTrunc ((p - axis.getD 0 0) * axis.getD 1 0) : ℚ))

/-- Body of `_locatePoint_` for a finite point: the representation
discriminator is `axis[2] > axis[1]` (true for a stored explicit axis,
false for the compact `[start, inverseStep, 0]` form). -/
def locFin (p : ℚ) (axis : List ℚ) (axLen : ℕ) : ℤ × ℚ :=
  if axis.getD 1 0 < axis.getD 2 0 then locExplicit p axis axLen
  else locUniform p axis axLen

/-- Model of `_locatePoint_`: result `(-1, _)` is the not-found signal,
otherwise the pair is the bracketing index and fractional weight.
A non-finite point fails immediately (`if not math.isfinite(point)`). -/
def locatePoint : Fl → List ℚ → ℕ → ℤ × ℚ
  | .fin p, axis, axLen => locFin p axis axLen
  | _, _, _ => (-1, 0)

/-! ### Axis encoding and construction (`GridInterpolator.__init__`) -/

/-- Model of `np.linspace(a, b, n)` in exact arithmetic. -/
def linspace (a b : ℚ) (n : ℕ) : List ℚ :=
  (List.range n).map (fun i : ℕ => a + (b - a) * (i : ℚ) / ((n : ℚ) - 1))

/-- Source test `np.all(np.absolute(ax - lin) <= tol + tol * np.absolute(lin))`. -/
def withinTol (ax lin : List ℚ) (tol : ℚ) : Bool :=
  (ax.zip lin).all fun q => |q.1 - q.2| ≤ tol + tol * |q.2|

/-- Per-axis encoding step of `__init__`: compare against the evenly spaced
axis with the same endpoints and count; store the compact
`[ax[0], (n-1)/(ax[-1]-ax[0]), 0]` when within tolerance, otherwise the
axis itself. -/
def encodeAxis (ax : List ℚ) (tol : ℚ) : List ℚ :=
  if withinTol ax (linspace (ax.getD 0 0) (ax.getD (ax.length - 1) 0) ax.length) tol then
    [ax.getD 0 0, ((ax.length : ℚ) - 1) / (ax.getD (ax.length - 1) 0 - ax.getD 0 0), 0]
  else ax

/-- Source check `np.all(np.diff(ax) > 0.)`. -/
def strictlyIncr (l : List ℚ) : Bool :=
  (l.zip l.tail).all fun q => q.1 < q.2

/-- Failure modes of `__init__`: the `ndim <= 5` assertion, the
strictly-increasing assertion, the `axes[0]` read on an empty axis list,
and the final `len(values) == x_stride * x_len` assertion. -/
inductive BuildError where
  | dimensionError : BuildError
  | invalidAxis : BuildError
  | indexError : BuildError
  | shapeMismatch : BuildError
deriving DecidableEq, Repr

/-- State assembled by `GridInterpolator.__init__`: per-dimension lengths,
strides, encoded axis arrays and the flat value buffer.  Dimensions past
`ndim` keep length 1 and an empty axis array. -/
structure GridInterpolator where
  ndim : ℕ
  x_len : ℕ
  y_len : ℕ
  z_len : ℕ
  u_len : ℕ
  v_len : ℕ
  x_stride : ℕ
  y_stride : ℕ
  z_stride : ℕ
  u_stride : ℕ
  v_stride : ℕ
  x_axis : List ℚ
  y_axis : List ℚ
  z_axis : List ℚ
  u_axis : List ℚ
  v_axis : List ℚ
  values : List ℚ
deriving DecidableEq, Repr, Inhabited

/-- Per-axis body of the `__init__` encode loop, in source order: the
strictly-increasing assertion on `np.diff(ax)` (vacuously true for an
empty axis), then the `ax[0]` read in `np.linspace(ax[0], ax[-1], ...)`,
which aborts with an index error when the axis is empty.  Returns the
first failure, or `none` when every axis passes. -/
def checkAxes : List (List ℚ) → Option BuildError
  | [] => none
  | ax :: rest =>
    if ¬ (strictlyIncr ax) then some .invalidAxis
    else if ax.length = 0 then some .indexError
    else checkAxes rest

/-- Tail of `__init__` once every axis has passed the encode loop: the
`axes[0]` read (an empty axis list aborts with an index error), the
stride fill-in, and the shape assertion
`len(values) == x_stride * x_len`. -/
def gridInitCore (axes : List (List ℚ)) (vals : List ℚ) (tol : ℚ) :
    Except BuildError GridInterpolator :=
  if axes.length = 0 then .error .indexError
  else if vals.length =
      (axes.map List.length).getD 4 1 * (axes.map List.length).getD 3 1
        * (axes.map List.length).getD 2 1 * (axes.map List.length).getD 1 1
        * (axes.map List.length).getD 0 1 then
    .ok { ndim := axes.length
          x_len := (axes.map List.length).getD 0 1
          y_len := (axes.map List.length).getD 1 1
          z_len := (axes.map List.length).getD 2 1
          u_len := (axes.map List.length).getD 3 1
          v_len := (axes.map List.length).getD 4 1
          x_stride := 1 * (axes.map List.length).getD 4 1 * (axes.map List.length).getD 3 1
            * (axes.map List.length).getD 2 1 * (axes.map List.length).getD 1 1
          y_stride := 1 * (axes.map List.length).getD 4 1 * (axes.map List.length).getD 3 1
            * (axes.map List.length).getD 2 1
          z_stride := 1 * (axes.map List.length).getD 4 1 * (axes.map List.length).getD 3 1
          u_stride := 1 * (axes.map List.length).getD 4 1
          v_stride := 1
          x_axis := (axes.map (encodeAxis · tol)).getD 0 []
          y_axis := (axes.map (encodeAxis · tol)).getD 1 []
          z_axis := (axes.map (encodeAxis · tol)).getD 2 []
          u_axis := (axes.map (encodeAxis · tol)).getD 3 []
          v_axis := (axes.map (encodeAxis · tol)).getD 4 []
          values := vals }
  else .error .shapeMismatch

/-- Model of `GridInterpolator.__init__`.  Checks appear in source order:
the `ndim <= 5` assertion, then the per-axis encode loop
(strictly-increasing assertion, then the `ax[0]` read that aborts on an
empty axis), then the remaining construction steps of `gridInitCore`. -/
def gridInit (axes : List (List ℚ)) (vals : List ℚ) (tol : ℚ) :
    Except BuildError GridInterpolator :=
  if 5 < axes.length then .error .dimensionError
  else
    match checkAxes axes with
    | some e => .error e
    | none => gridInitCore axes vals tol

/-! ### The blend (`_unit_interp3`, `_interp1d` .. `_interp5d`, `interp`) -/

/-- Model of `_unit_interp3`: collapse the three given strides (fastest,
`zs`, first), reading the eight corners at `s` plus subsets of
`{xs, ys, zs}` in the source's order. -/
def unit_interp3 (v : List ℚ) (s xs ys zs : ℕ) (xw yw zw : ℚ) : ℚ :=
  (1-xw) * ((1-yw) * ((1-zw) * v.getD s 0 + zw * v.getD (s+zs) 0)
      + yw * ((1-zw) * v.getD (s+ys) 0 + zw * v.getD (s+ys+zs) 0))
    + xw * ((1-yw) * ((1-zw) * v.getD (s+xs) 0 + zw * v.getD (s+xs+zs) 0)
      + yw * ((1-zw) * v.getD (s+ys+xs) 0 + zw * v.getD (s+ys+xs+zs) 0))

/-- Locate on the first axis, as done by every `_interpNd`. -/
def locX (g : GridInterpolator) (c : Fl) : ℤ × ℚ := locatePoint c g.x_axis g.x_len

/-- Locate on the second axis. -/
def locY (g : GridInterpolator) (c : Fl) : ℤ × ℚ := locatePoint c g.y_axis g.y_len

/-- Locate on the third axis. -/
def locZ (g : GridInterpolator) (c : Fl) : ℤ × ℚ := locatePoint c g.z_axis g.z_len

/-- Locate on the fourth axis. -/
def locU (g : GridInterpolator) (c : Fl) : ℤ × ℚ := locatePoint c g.u_axis g.u_len

/-- Locate on the fifth axis. -/
def locV (g : GridInterpolator) (c : Fl) : ℤ × ℚ := locatePoint c g.v_axis g.v_len

/-- Model of `_interp1d`: locate, return NaN (none) on failure, else the
two-point weighted sum `values[xi]*(1-xw) + xw*values[xi+1]`. -/
def interp1d (g : GridInterpolator) (x : Fl) : Option ℚ :=
  if (locX g x).1 < 0 then none
  else some (g.values.getD (locX g x).1.toNat 0 * (1 - (locX g x).2)
    + (locX g x).2 * g.values.getD ((locX g x).1.toNat + 1) 0)

/-- Four-corner blend of `_interp2d` at base offset `s = xi*x_stride + yi*y_stride`. -/
def interp2dAt (g : GridInterpolator) (s : ℕ) (xw yw : ℚ) : ℚ :=
  (1-xw) * ((1-yw) * g.values.getD s 0 + yw * g.values.getD (s + g.y_stride) 0)
    + xw * ((1-yw) * g.values.getD (s + g.x_stride) 0
      + yw * g.values.getD (s + g.x_stride + g.y_stride) 0)

/-- Model of `_interp2d`. -/
def interp2d (g : GridInterpolator) (x y : Fl) : Option ℚ :=
  if (locX g x).1 < 0 ∨ (locY g y).1 < 0 then none
  else some (interp2dAt g ((locX g x).1.toNat * g.x_stride + (locY g y).1.toNat * g.y_stride)
    (locX g x).2 (locY g y).2)

/-- Model of `_interp3d`. -/
def interp3d (g : GridInterpolator) (x y z : Fl) : Option ℚ :=
  if (locX g x).1 < 0 ∨ (locY g y).1 < 0 ∨ (locZ g z).1 < 0 then none
  else some (unit_interp3 g.values
    ((locX g x).1.toNat * g.x_stride + (locY g y).1.toNat * g.y_stride
      + (locZ g z).1.toNat * g.z_stride)
    g.x_stride g.y_stride g.z_stride (locX g x).2 (locY g y).2 (locZ g z).2)

/-- Model of `_interp4d`: collapse `(y,z,u)` at `s` and `s + x_stride`,
then combine with the `x` weight. -/
def interp4d (g : GridInterpolator) (x y z u : Fl) : Option ℚ :=
  if (locX g x).1 < 0 ∨ (locY g y).1 < 0 ∨ (locZ g z).1 < 0 ∨ (locU g u).1 < 0 then none
  else some ((1 - (locX g x).2) * unit_interp3 g.values
      ((locX g x).1.toNat * g.x_stride + (locY g y).1.toNat * g.y_stride
        + (locZ g z).1.toNat * g.z_stride + (locU g u).1.toNat * g.u_stride)
      g.y_stride g.z_stride g.u_stride (locY g y).2 (locZ g z).2 (locU g u).2
    + (locX g x).2 * unit_interp3 g.values
      ((locX g x).1.toNat * g.x_stride + (locY g y).1.toNat * g.y_stride
        + (locZ g z).1.toNat * g.z_stride + (locU g u).1.toNat * g.u_stride + g.x_stride)
      g.y_stride g.z_stride g.u_stride (locY g y).2 (locZ g z).2 (locU g u).2)

/-- Base offset of `_interp5d`. -/
def base5 (g : GridInterpolator) (xi yi zi ui vi : ℕ) : ℕ :=
  xi * g.x_stride + yi * g.y_stride + zi * g.z_stride + ui * g.u_stride + vi * g.v_stride

/-- Model of `_interp5d`: collapse `(z,u,v)` at the four corners
`s`, `s+y_stride`, `s+y_stride+x_stride`, `s+x_stride` (the source walks
them in that order), then combine with the `y` and `x` weights. -/
def interp5d (g : GridInterpolator) (x y z u v : Fl) : Option ℚ :=
  if (locX g x).1 < 0 ∨ (locY g y).1 < 0 ∨ (locZ g z).1 < 0 ∨ (locU g u).1 < 0
      ∨ (locV g v).1 < 0 then none
  else some (
    ((1 - (locY g y).2) * unit_interp3 g.values
        (base5 g (locX g x).1.toNat (locY g y).1.toNat (locZ g z).1.toNat (locU g u).1.toNat
          (locV g v).1.toNat)
        g.z_stride g.u_stride g.v_stride (locZ g z).2 (locU g u).2 (locV g v).2
      + (locY g y).2 * unit_interp3 g.values
        (base5 g (locX g x).1.toNat (locY g y).1.toNat (locZ g z).1.toNat (locU g u).1.toNat
          (locV g v).1.toNat + g.y_stride)
        g.z_stride g.u_stride g.v_stride (locZ g z).2 (locU g u).2 (locV g v).2) * (1 - (locX g x).2)
    + (locX g x).2 * ((1 - (locY g y).2) * unit_interp3 g.values
        (base5 g (locX g x).1.toNat (locY g y).1.toNat (locZ g z).1.toNat (locU g u).1.toNat
          (locV g v).1.toNat + g.x_stride)
        g.z_stride g.u_stride g.v_stride (locZ g z).2 (locU g u).2 (locV g v).2
      + (locY g y).2 * unit_interp3 g.values
        (base5 g (locX g x).1.toNat (locY g y).1.toNat (locZ g z).1.toNat (locU g u).1.toNat
          (locV g v).1.toNat + g.y_stride + g.x_stride)
        g.z_stride g.u_stride g.v_stride (locZ g z).2 (locU g u).2 (locV g v).2))

/-- Model of `GridInterpolator.interp`: dispatch on `ndim`, falling
through to NaN (none) for any other rank. -/
def interp (g : GridInterpolator) (x : List Fl) : Option ℚ :=
  if g.ndim = 1 then interp1d g (x.getD 0 .nan)
  else if g.ndim = 2 then interp2d g (x.getD 0 .nan) (x.getD 1 .nan)
  else if g.ndim = 3 then interp3d g (x.getD 0 .nan) (x.getD 1 .nan) (x.getD 2 .nan)
  else if g.ndim = 4 then interp4d g (x.getD 0 .nan) (x.getD 1 .nan) (x.getD 2 .nan) (x.getD 3 .nan)
  else if g.ndim = 5 then
    interp5d g (x.getD 0 .nan) (x.getD 1 .nan) (x.getD 2 .nan) (x.getD 3 .nan) (x.getD 4 .nan)
  else none

/-! ### Specification-side helper predicates -/

/-- Evenly spaced axis `a, a+d, ..., a+(n-1)d`, the spec's model of a
uniformly spaced coordinate sequence. -/
def evenAxis (a d : ℚ) (n : ℕ) : List ℚ :=
  (List.range n).map (fun k : ℕ => a + (k : ℚ) * d)

/-- A query coordinate is invalid for an axis when it is NaN, infinite,
strictly below the axis minimum or strictly above the axis maximum. -/
def badCoord (c : Fl) (ax : List ℚ) : Prop :=
  match c with
  | .nan => True
  | .posInf => True
  | .negInf => True
  | .fin p => p < ax.getD 0 0 ∨ ax.getD (ax.length - 1) 0 < p

/-- Declared length of the k-th dimension of a built interpolator. -/
def lenOf (g : GridInterpolator) : ℕ → ℕ
  | 0 => g.x_len
  | 1 => g.y_len
  | 2 => g.z_len
  | 3 => g.u_len
  | _ => g.v_len

/-- Stored axis array of the k-th dimension. -/
def axisOf (g : GridInterpolator) : ℕ → List ℚ
  | 0 => g.x_axis
  | 1 => g.y_axis
  | 2 => g.z_axis
  | 3 => g.u_axis
  | _ => g.v_axis

/-- Stride of the k-th dimension. -/
def strideOf (g : GridInterpolator) : ℕ → ℕ
  | 0 => g.x_stride
  | 1 => g.y_stride
  | 2 => g.z_stride
  | 3 => g.u_stride
  | _ => g.v_stride

/-! ### List-level bridging lemmas -/

/-- The `np.diff > 0` check is pairwise strict increase. -/
theorem strictlyIncr_iff (l : List ℚ) : strictlyIncr l = true ↔ l.Pairwise (· < ·) := by
  rw [← List.chain'_iff_pairwise]
  induction l with
  | nil => simp [strictlyIncr]
  | cons a t ih =>
    cases t with
    | nil => simp [strictlyIncr]
    | cons b t' =>
      simp only [strictlyIncr, List.tail_cons, List.zip_cons_cons, List.all_cons,
        Bool.and_eq_true, decide_eq_true_eq, List.chain'_cons] at ih ⊢
      exact and_congr Iff.rfl ih

/-- Positional reading of pairwise strict increase, through `getD`. -/
theorem pairwise_getD_lt (l : List ℚ) (h : l.Pairwise (· < ·)) {i j : ℕ}
    (hij : i < j) (hj : j < l.length) : l.getD i 0 < l.getD j 0 := by
  rw [List.getD_eq_getElem l 0 (lt_trans hij hj), List.getD_eq_getElem l 0 hj]
  exact List.pairwise_iff_getElem.mp h i j _ _ hij

/-- Monotone (non-strict) positional reading. -/
theorem pairwise_getD_le (l : List ℚ) (h : l.Pairwise (· < ·)) {i j : ℕ}
    (hij : i ≤ j) (hj : j < l.length) : l.getD i 0 ≤ l.getD j 0 := by
  rcases Nat.lt_or_ge i j with hlt | hge
  · exact (pairwise_getD_lt l h hlt hj).le
  · have : i = j := le_antisymm hij hge
    rw [this]

/-- Elementwise reading of an `all` over a zip of equal-length lists. -/
theorem zip_all_iff (p : ℚ → ℚ → Bool) :
    ∀ (l1 l2 : List ℚ), l1.length = l2.length →
    (((l1.zip l2).all fun q => p q.1 q.2) = true ↔
      ∀ i, i < l1.length → p (l1.getD i 0) (l2.getD i 0) = true) := by
  intro l1
  induction l1 with
  | nil => intro l2 _; simp
  | cons a t ih =>
    intro l2 hlen
    cases l2 with
    | nil => simp at hlen
    | cons b t2 =>
      simp only [List.length_cons, Nat.succ_inj] at hlen
      simp only [List.zip_cons_cons, List.all_cons, Bool.and_eq_true, ih t2 hlen,
        List.length_cons]
      constructor
      · rintro ⟨hab, hrest⟩ i hi
        cases i with
        | zero => simpa using hab
        | succ i' => simpa using hrest i' (by omega)
      · intro hall
        refine ⟨by simpa using hall 0 (by omega), fun i hi => by simpa using hall (i+1) (by omega)⟩

/-- Length of the linspace model. -/
theorem linspace_length (a b : ℚ) (n : ℕ) : (linspace a b n).length = n := by
  unfold linspace
  rw [List.length_map, List.length_range]

/-- Elements of the linspace model. -/
theorem linspace_getD (a b : ℚ) (n i : ℕ) (h : i < n) :
    (linspace a b n).getD i 0 = a + (b - a) * i / ((n : ℚ) - 1) := by
  rw [List.getD_eq_getElem _ 0 (by rw [linspace_length]; exact h)]
  unfold linspace
  simp only [List.getElem_map, List.getElem_range]

/-- Length of the evenly spaced axis model. -/
theorem evenAxis_length (a d : ℚ) (n : ℕ) : (evenAxis a d n).length = n := by
  unfold evenAxis
  rw [List.length_map, List.length_range]

/-- Elements of the evenly spaced axis model. -/
theorem evenAxis_getD (a d : ℚ) (n i : ℕ) (h : i < n) :
    (evenAxis a d n).getD i 0 = a + i * d := by
  rw [List.getD_eq_getElem _ 0 (by rw [evenAxis_length]; exact h)]
  unfold evenAxis
  simp only [List.getElem_map, List.getElem_range]

/-- An evenly spaced axis with positive step is strictly increasing. -/
theorem evenAxis_pairwise (a d : ℚ) (hd : 0 < d) (n : ℕ) :
    (evenAxis a d n).Pairwise (· < ·) := by
  rw [List.pairwise_iff_getElem]
  intro i j hi hj hij
  unfold evenAxis at *
  simp only [List.getElem_map, List.getElem_range] at *
  have : (i : ℚ) < (j : ℚ) := by exact_mod_cast hij
  nlinarith

/-! ### Correctness and termination of the binary-search loop -/

/-- Termination and bracketing of the `_locatePoint_` binary search: on a
strictly increasing axis, with `axis[low] <= p < axis[high]`, fuel
`high - low` always suffices and the loop exits with the bracketing index. -/
theorem searchGo_succeeds (p : ℚ) (ax : List ℚ) (hax : ax.Pairwise (· < ·)) :
    ∀ (fuel low high : ℕ), low < high → high ≤ ax.length - 1 →
    ax.getD low 0 ≤ p → p < ax.getD high 0 → high - low ≤ fuel →
    ∃ i, searchGo p ax fuel low high = some i ∧ low ≤ i ∧ i < high ∧
      ax.getD i 0 ≤ p ∧ p < ax.getD (i+1) 0 := by
  intro fuel
  induction fuel with
  | zero => intro low high h1 _ _ _ h5; omega
  | succ fuel ih =>
    intro low high hlh hhigh hlow hup hfuel
    have hlen : 1 ≤ ax.length := by
      by_contra h
      have : ax.length = 0 := by omega
      omega
    by_cases hc : ax.getD ((low + high) / 2) 0 ≤ p ∧ p < ax.getD ((low + high) / 2 + 1) 0
    · refine ⟨(low + high) / 2, ?_, by omega, by omega, hc.1, hc.2⟩
      simp only [searchGo, if_pos hc]
    · by_cases hgt : ax.getD ((low + high) / 2) 0 < p
      · -- narrow from below: low := i
        have hne : low < (low + high) / 2 := by
          rcases Nat.lt_or_ge low ((low + high) / 2) with h | h
          · exact h
          · exfalso
            have hi : (low + high) / 2 = low := by omega
            have hh : high = low + 1 := by omega
            exact hc ⟨by rw [hi]; exact hlow, by rw [hi]; rw [hh] at hup; exact hup⟩
        obtain ⟨j, hj, hj1, hj2, hj3, hj4⟩ :=
          ih ((low + high) / 2) high (by omega) hhigh hgt.le hup (by omega)
        refine ⟨j, ?_, by omega, hj2, hj3, hj4⟩
        simp only [searchGo, if_neg hc, if_pos hgt]
        exact hj
      · -- narrow from above: high := i; here p is strictly below axis[i]
        have hplt : p < ax.getD ((low + high) / 2) 0 := by
          rcases lt_or_eq_of_le (not_lt.mp hgt) with h | h
          · exact h
          · exfalso
            apply hc
            refine ⟨le_of_eq h.symm, ?_⟩
            by_contra hnb
            have hnext : ax.getD ((low + high) / 2) 0 < ax.getD ((low + high) / 2 + 1) 0 := by
              apply pairwise_getD_lt ax hax (by omega)
              omega
            rw [← h] at hnext
            exact absurd (not_lt.mp hnb) (not_le.mpr hnext)
        have hne : low < (low + high) / 2 := by
          rcases Nat.lt_or_ge low ((low + high) / 2) with h | h
          · exact h
          · exfalso
            have hi : (low + high) / 2 = low := by omega
            rw [hi] at hplt
            exact absurd hlow (not_le.mpr hplt)
        obtain ⟨j, hj, hj1, hj2, hj3, hj4⟩ :=
          ih low ((low + high) / 2) hne (by omega) hlow hplt (by omega)
        refine ⟨j, ?_, hj1, by omega, hj3, hj4⟩
        simp only [searchGo, if_neg hc, if_neg hgt]
        exact hj

/-! ### Properties of the axis encoder -/

/-- A two-point axis always passes the uniformity test (the evenly spaced
comparison axis is the axis itself), provided the tolerance is nonnegative. -/
theorem withinTol_len2 (p q tol : ℚ) (ht : 0 ≤ tol) :
    withinTol [p, q] (linspace p q 2) tol = true := by
  have hr : List.range 2 = [0, 1] := rfl
  have hlin : linspace p q 2 = [p, q] := by
    unfold linspace
    rw [hr]
    simp only [List.map_cons, List.map_nil]
    norm_num
  rw [hlin]
  unfold withinTol
  simp only [List.zip_cons_cons, List.zip_nil_right, List.all_cons, List.all_nil,
    Bool.and_eq_true, decide_eq_true_eq, Bool.and_true]
  constructor
  · simp only [sub_self, abs_zero]
    positivity
  · simp only [sub_self, abs_zero]
    positivity

/-- When the uniformity test fails on an axis of length at least 2, the
axis in fact has length at least 3 (two-point axes always pass). -/
theorem explicit_len3 (ax : List ℚ) (tol : ℚ) (htol : 0 ≤ tol) (h2 : 2 ≤ ax.length)
    (hexp : withinTol ax (linspace (ax.getD 0 0) (ax.getD (ax.length - 1) 0) ax.length) tol
      = false) : 3 ≤ ax.length := by
  by_contra h
  have hlen : ax.length = 2 := by omega
  match ax, hlen with
  | [p, q], _ =>
    simp only [List.length_cons, List.length_nil] at hlen ⊢
    have := withinTol_len2 p q tol htol
    simp only [List.getD_cons_zero, List.getD_cons_succ] at hexp
    rw [show ([p, q] : List ℚ).length = 2 from rfl] at hexp
    simp only [show (2 : ℕ) - 1 = 1 from rfl, List.getD_cons_succ, List.getD_cons_zero] at hexp
    rw [this] at hexp
    exact Bool.true_eq_false.mp hexp

/-! ### Characterization of `_locatePoint_` on the two representations -/

/-- On the compact uniform representation with positive inverse step, the
discriminator `axis[2] > axis[1]` is false and the uniform branch runs. -/
theorem locFin_uniform_rep (p a inv : ℚ) (hinv : 0 < inv) (n : ℕ) :
    locFin p [a, inv, 0] n = locUniform p [a, inv, 0] n := by
  unfold locFin
  rw [if_neg]
  simp only [List.getD_cons_succ, List.getD_cons_zero, not_lt]
  exact hinv.le

/-- On a stored explicit axis (strictly increasing, length at least 3) the
discriminator is true and the explicit branch runs. -/
theorem locFin_explicit_rep (p : ℚ) (ax : List ℚ) (hax : ax.Pairwise (· < ·))
    (h3 : 3 ≤ ax.length) (n : ℕ) :
    locFin p ax n = locExplicit p ax n := by
  unfold locFin
  rw [if_pos]
  exact pairwise_getD_lt ax hax (by omega) (by omega)

/-- Exact-maximum rule, uniform branch: querying at
`axis[0] + (axLen-1)/axis[1]` returns index `axLen-2` with weight 1. -/
theorem locUniform_max (a inv : ℚ) (n : ℕ) :
    locUniform (a + ((n : ℚ) - 1) / inv) [a, inv, 0] n = ((n : ℤ) - 2, 1) := by
  unfold locUniform
  simp only [List.getD_cons_zero, List.getD_cons_succ]
  simp

/-- Out-of-bounds behaviour of the uniform branch. -/
theorem locUniform_out (p a inv : ℚ) (n : ℕ)
    (h : p < a ∨ a + ((n : ℚ) - 1) / inv ≤ p) (hne : p ≠ a + ((n : ℚ) - 1) / inv) :
    locUniform p [a, inv, 0] n = (-1, 0) := by
  unfold locUniform
  simp only [List.getD_cons_zero, List.getD_cons_succ]
  rw [if_neg hne, if_pos h]

/-- In-range behaviour of the uniform branch: the index is the floor of
`(p - start) * inverseStep`, it is nonnegative, and it is at most `n-2`. -/
theorem locUniform_in (p a inv : ℚ) (n : ℕ) (hinv : 0 < inv) (hlo : a ≤ p)
    (hhi : p < a + ((n : ℚ) - 1) / inv) :
    locUniform p [a, inv, 0] n
      = (⌊(p - a) * inv⌋, (p - a) * inv - (⌊(p - a) * inv⌋ : ℚ)) ∧
    0 ≤ ⌊(p - a) * inv⌋ ∧ ⌊(p - a) * inv⌋ ≤ (n : ℤ) - 2 := by
  have hw0 : 0 ≤ (p - a) * inv := mul_nonneg (sub_nonneg.mpr hlo) hinv.le
  have hwlt : (p - a) * inv < (n : ℚ) - 1 := by
    have h1 : p - a < ((n : ℚ) - 1) / inv := by linarith
    calc (p - a) * inv < (((n : ℚ) - 1) / inv) * inv := by
          exact mul_lt_mul_of_pos_right h1 hinv
      _ = (n : ℚ) - 1 := div_mul_cancel₀ _ hinv.ne'
  have htr : ratTrunc ((p - a) * inv) = ⌊(p - a) * inv⌋ := by
    unfold ratTrunc
    rw [if_pos hw0]
  have hfl0 : 0 ≤ ⌊(p - a) * inv⌋ := Int.floor_nonneg.mpr hw0
  have hfl2 : ⌊(p - a) * inv⌋ ≤ (n : ℤ) - 2 := by
    have h1 : (⌊(p - a) * inv⌋ : ℚ) ≤ (p - a) * inv := Int.floor_le _
    have h2 : (⌊(p - a) * inv⌋ : ℚ) < (n : ℚ) - 1 := lt_of_le_of_lt h1 hwlt
    have h3 : ⌊(p - a) * inv⌋ < (n : ℤ) - 1 := by exact_mod_cast h2
    omega
  refine ⟨?_, hfl0, hfl2⟩
  unfold locUniform
  simp only [List.getD_cons_zero, List.getD_cons_succ]
  rw [if_neg (ne_of_lt hhi), if_neg (by push_neg; exact ⟨hlo, hhi⟩), htr]

/-- Exact-maximum rule, explicit branch: querying at `axis[-1]` returns
index `axLen-2` with weight 1. -/
theorem locExplicit_max (ax : List ℚ) (axLen : ℕ) :
    locExplicit (ax.getD (ax.length - 1) 0) ax axLen = ((axLen : ℤ) - 2, 1) := by
  unfold locExplicit
  rw [if_pos rfl]

/-- Out-of-bounds behaviour of the explicit branch. -/
theorem locExplicit_out (p : ℚ) (ax : List ℚ) (axLen : ℕ)
    (h : p < ax.getD 0 0 ∨ ax.getD (ax.length - 1) 0 < p)
    (hne : p ≠ ax.getD (ax.length - 1) 0) :
    locExplicit p ax axLen = (-1, 0) := by
  unfold locExplicit
  rw [if_neg hne, if_pos h]

/-- In-range behaviour of the explicit branch: the binary search terminates
with the bracketing index `i < length - 1` and the interpolation weight is
`(p - axis[i]) / (axis[i+1] - axis[i])`. -/
theorem locExplicit_in (ax : List ℚ) (hax : ax.Pairwise (· < ·)) (h2 : 2 ≤ ax.length)
    (axLen : ℕ) (p : ℚ) (hlo : ax.getD 0 0 ≤ p) (hhi : p < ax.getD (ax.length - 1) 0) :
    ∃ i, searchGo p ax ax.length 0 (ax.length - 1) = some i ∧ i < ax.length - 1 ∧
      ax.getD i 0 ≤ p ∧ p < ax.getD (i + 1) 0 ∧
      locExplicit p ax axLen
        = ((i : ℤ), (p - ax.getD i 0) / (ax.getD (i + 1) 0 - ax.getD i 0)) := by
  obtain ⟨i, hi, _, hi2, hi3, hi4⟩ :=
    searchGo_succeeds p ax hax ax.length 0 (ax.length - 1) (by omega) (by omega) hlo hhi
      (by omega)
  refine ⟨i, hi, hi2, hi3, hi4, ?_⟩
  unfold locExplicit
  rw [if_neg (ne_of_lt hhi), if_neg (by push_neg; exact ⟨hlo, hhi.le⟩), hi]

/-! ### Locating on an encoder-produced axis -/

/-- Endpoints of a strictly increasing axis with at least two samples. -/
theorem axis_lo_lt_hi (ax : List ℚ) (hax : ax.Pairwise (· < ·)) (h2 : 2 ≤ ax.length) :
    ax.getD 0 0 < ax.getD (ax.length - 1) 0 :=
  pairwise_getD_lt ax hax (by omega) (by omega)

/-- Full characterization of `_locatePoint_` on the representation the
constructor stores for a strictly increasing axis of length at least 2:
the result index is negative exactly for an invalid coordinate (NaN,
infinite, or strictly outside the axis range), and any nonnegative result
index is at most `length - 2`. -/
theorem locate_encode (ax : List ℚ) (tol : ℚ) (htol : 0 ≤ tol)
    (hax : ax.Pairwise (· < ·)) (h2 : 2 ≤ ax.length) (c : Fl) :
    ((locatePoint c (encodeAxis ax tol) ax.length).1 < 0 ↔ badCoord c ax) ∧
    (0 ≤ (locatePoint c (encodeAxis ax tol) ax.length).1 →
      (locatePoint c (encodeAxis ax tol) ax.length).1.toNat + 2 ≤ ax.length) := by
  have hab : ax.getD 0 0 < ax.getD (ax.length - 1) 0 := axis_lo_lt_hi ax hax h2
  cases c with
  | nan => exact ⟨by simp [locatePoint, badCoord], by simp [locatePoint]⟩
  | posInf => exact ⟨by simp [locatePoint, badCoord], by simp [locatePoint]⟩
  | negInf => exact ⟨by simp [locatePoint, badCoord], by simp [locatePoint]⟩
  | fin p =>
    have hloc : locatePoint (.fin p) (encodeAxis ax tol) ax.length
        = locFin p (encodeAxis ax tol) ax.length := rfl
    by_cases huni :
        withinTol ax (linspace (ax.getD 0 0) (ax.getD (ax.length - 1) 0) ax.length) tol = true
    · -- uniform representation [start, inverseStep, 0]
      have henc : encodeAxis ax tol
          = [ax.getD 0 0, ((ax.length : ℚ) - 1) / (ax.getD (ax.length - 1) 0 - ax.getD 0 0), 0] := by
        unfold encodeAxis
        rw [if_pos huni]
      have hinv : 0 < ((ax.length : ℚ) - 1) / (ax.getD (ax.length - 1) 0 - ax.getD 0 0) := by
        apply div_pos
        · have : (2 : ℚ) ≤ (ax.length : ℚ) := by exact_mod_cast h2
          linarith
        · linarith
      have hmax : ax.getD 0 0 + ((ax.length : ℚ) - 1)
          / (((ax.length : ℚ) - 1) / (ax.getD (ax.length - 1) 0 - ax.getD 0 0))
          = ax.getD (ax.length - 1) 0 := by
        have hn1 : ((ax.length : ℚ) - 1) ≠ 0 := by
          have : (2 : ℚ) ≤ (ax.length : ℚ) := by exact_mod_cast h2
          linarith
        have hba : ax.getD (ax.length - 1) 0 - ax.getD 0 0 ≠ 0 := by linarith
        field_simp
      rw [hloc, henc, locFin_uniform_rep p _ _ hinv]
      by_cases hpb : p = ax.getD (ax.length - 1) 0
      · have hmx := locUniform_max (ax.getD 0 0)
          (((ax.length : ℚ) - 1) / (ax.getD (ax.length - 1) 0 - ax.getD 0 0)) ax.length
        rw [hmax] at hmx
        have : locUniform p
            [ax.getD 0 0, ((ax.length : ℚ) - 1) / (ax.getD (ax.length - 1) 0 - ax.getD 0 0), 0]
            ax.length = ((ax.length : ℤ) - 2, 1) := by
          rw [hpb]
          exact hmx
        rw [this]
        constructor
        · simp only [badCoord]
          constructor
          · intro hlt
            exfalso
            omega
          · intro hbad
            exfalso
            rcases hbad with hl | hr
            · rw [hpb] at hl; linarith
            · rw [hpb] at hr; linarith
        · intro _
          simp only
          omega
      · by_cases hin : ax.getD 0 0 ≤ p ∧ p < ax.getD (ax.length - 1) 0
        · obtain ⟨heq, hge, hle⟩ := locUniform_in p (ax.getD 0 0) _ ax.length hinv hin.1
            (by rw [hmax]; exact hin.2)
          rw [heq]
          constructor
          · simp only [badCoord]
            constructor
            · intro hlt; exfalso; omega
            · intro hbad
              exfalso
              rcases hbad with hl | hr
              · linarith [hin.1]
              · linarith [hin.2]
          · intro _
            simp only
            omega
        · have hout : p < ax.getD 0 0 ∨ ax.getD (ax.length - 1) 0 < p := by
            rcases not_and_or.mp hin with h | h
            · exact Or.inl (not_le.mp h)
            · exact Or.inr (lt_of_le_of_ne (not_lt.mp h) (fun hh => hpb hh.symm))
          have : locUniform p
              [ax.getD 0 0, ((ax.length : ℚ) - 1) / (ax.getD (ax.length - 1) 0 - ax.getD 0 0), 0]
              ax.length = (-1, 0) := by
            apply locUniform_out
            · rcases hout with h | h
              · exact Or.inl h
              · exact Or.inr (by rw [hmax]; exact h.le)
            · rw [hmax]; exact hpb
          rw [this]
          constructor
          · simp only [badCoord]
            constructor
            · intro _; exact hout
            · intro _; decide
          · intro hge; exfalso; omega
    · -- explicit representation: the axis itself, necessarily of length >= 3
      have henc : encodeAxis ax tol = ax := by
        unfold encodeAxis
        rw [if_neg huni]
      have h3 : 3 ≤ ax.length :=
        explicit_len3 ax tol htol h2 (by simpa using huni)
      rw [hloc, henc, locFin_explicit_rep p ax hax h3]
      by_cases hpb : p = ax.getD (ax.length - 1) 0
      · have : locExplicit p ax ax.length = ((ax.length : ℤ) - 2, 1) := by
          rw [hpb]; exact locExplicit_max ax ax.length
        rw [this]
        constructor
        · simp only [badCoord]
          constructor
          · intro hlt; exfalso; omega
          · intro hbad
            exfalso
            rcases hbad with hl | hr
            · rw [hpb] at hl; linarith
            · rw [hpb] at hr; linarith
        · intro _
          simp only
          omega
      · by_cases hin : ax.getD 0 0 ≤ p ∧ p < ax.getD (ax.length - 1) 0
        · obtain ⟨i, _, hi2, _, _, heq⟩ :=
            locExplicit_in ax hax h2 ax.length p hin.1 hin.2
          rw [heq]
          constructor
          · simp only [badCoord]
            constructor
            · intro hlt; exfalso; omega
            · intro hbad
              exfalso
              rcases hbad with hl | hr
              · linarith [hin.1]
              · linarith [hin.2]
          · intro _
            simp only
            omega
        · have hout : p < ax.getD 0 0 ∨ ax.getD (ax.length - 1) 0 < p := by
            rcases not_and_or.mp hin with h | h
            · exact Or.inl (not_le.mp h)
            · exact Or.inr (lt_of_le_of_ne (not_lt.mp h) (fun hh => hpb hh.symm))
          rw [locExplicit_out p ax ax.length hout hpb]
          constructor
          · simp only [badCoord]
            constructor
            · intro _; exact hout
            · intro _; decide
          · intro hge; exfalso; omega

/-! ### Properties of the constructor -/

/-- Reading a mapped list at an in-range position. -/
theorem getD_map_encode (axes : List (List ℚ)) (tol : ℚ) (k : ℕ) (h : k < axes.length) :
    (axes.map (encodeAxis · tol)).getD k [] = encodeAxis (axes.getD k []) tol := by
  rw [List.getD_eq_getElem _ _ (by rw [List.length_map]; exact h),
    List.getD_eq_getElem _ _ h, List.getElem_map]

/-- Reading the mapped length list at an in-range position. -/
theorem getD_map_length (axes : List (List ℚ)) (k : ℕ) (h : k < axes.length) :
    (axes.map List.length).getD k 1 = (axes.getD k []).length := by
  rw [List.getD_eq_getElem _ _ (by rw [List.length_map]; exact h),
    List.getD_eq_getElem _ _ h, List.getElem_map]

/-- Reading the mapped length list past the end gives the default 1. -/
theorem getD_map_length_ge (axes : List (List ℚ)) (k : ℕ) (h : axes.length ≤ k) :
    (axes.map List.length).getD k 1 = 1 :=
  List.getD_eq_default _ _ (by rw [List.length_map]; exact h)

/-- The five stride factors of the shape check multiply to the product of
all declared axis lengths (missing dimensions contribute 1). -/
theorem prod_lens (axes : List (List ℚ)) (h5 : axes.length ≤ 5) :
    (axes.map List.length).getD 4 1 * (axes.map List.length).getD 3 1
      * (axes.map List.length).getD 2 1 * (axes.map List.length).getD 1 1
      * (axes.map List.length).getD 0 1 = (axes.map List.length).prod := by
  match axes, h5 with
  | [], _ => simp
  | [a], _ =>
    rw [getD_map_length _ 0 (by simp), getD_map_length_ge _ 1 (by simp),
      getD_map_length_ge _ 2 (by simp), getD_map_length_ge _ 3 (by simp),
      getD_map_length_ge _ 4 (by simp)]
    simp
  | [a, b], _ =>
    rw [getD_map_length _ 0 (by simp), getD_map_length _ 1 (by simp),
      getD_map_length_ge _ 2 (by simp), getD_map_length_ge _ 3 (by simp),
      getD_map_length_ge _ 4 (by simp)]
    simp [List.getD]
    ring
  | [a, b, c], _ =>
    rw [getD_map_length _ 0 (by simp), getD_map_length _ 1 (by simp),
      getD_map_length _ 2 (by simp), getD_map_length_ge _ 3 (by simp),
      getD_map_length_ge _ 4 (by simp)]
    simp [List.getD]
    ring
  | [a, b, c, d], _ =>
    rw [getD_map_length _ 0 (by simp), getD_map_length _ 1 (by simp),
      getD_map_length _ 2 (by simp), getD_map_length _ 3 (by simp),
      getD_map_length_ge _ 4 (by simp)]
    simp [List.getD]
    ring
  | [a, b, c, d, e], _ =>
    rw [getD_map_length _ 0 (by simp), getD_map_length _ 1 (by simp),
      getD_map_length _ 2 (by simp), getD_map_length _ 3 (by simp),
      getD_map_length _ 4 (by simp)]
    simp [List.getD]
    ring

/-- The encode loop passes exactly when every axis is strictly increasing
and nonempty. -/
theorem checkAxes_eq_none (axes : List (List ℚ)) :
    checkAxes axes = none ↔ ∀ ax ∈ axes, strictlyIncr ax = true ∧ ax ≠ [] := by
  induction axes with
  | nil => simp [checkAxes]
  | cons a t ih =>
    simp only [checkAxes]
    by_cases h1 : strictlyIncr a = true
    · by_cases h2 : a.length = 0
      · rw [if_neg (by simp [h1]), if_pos h2]
        simp only [List.mem_cons]
        constructor
        · intro hcon
          exact absurd hcon (by simp)
        · intro hall
          exact absurd (List.length_eq_zero.mp h2) (hall a (Or.inl rfl)).2
      · rw [if_neg (by simp [h1]), if_neg h2, ih]
        constructor
        · intro hall ax hax
          rcases List.mem_cons.mp hax with rfl | hax'
          · exact ⟨h1, fun he => h2 (by rw [he]; rfl)⟩
          · exact hall ax hax'
        · intro hall ax hax
          exact hall ax (List.mem_cons_of_mem a hax)
    · rw [if_pos (by simpa using h1)]
      simp only [List.mem_cons]
      constructor
      · intro hcon
        exact absurd hcon (by simp)
      · intro hall
        exact absurd (hall a (Or.inl rfl)).1 h1

/-- With every axis nonempty, a non-strictly-increasing axis makes the
encode loop fail with the strictly-increasing assertion. -/
theorem checkAxes_invalid (axes : List (List ℚ)) (hne : ∀ ax ∈ axes, ax ≠ [])
    (hex : ∃ ax ∈ axes, strictlyIncr ax = false) :
    checkAxes axes = some .invalidAxis := by
  induction axes with
  | nil =>
    obtain ⟨ax, hmem, _⟩ := hex
    exact absurd hmem (List.not_mem_nil ax)
  | cons a t ih =>
    simp only [checkAxes]
    by_cases h1 : strictlyIncr a = true
    · have hlen : ¬ a.length = 0 := fun h =>
        hne a (List.mem_cons_self a t) (List.length_eq_zero.mp h)
      rw [if_neg (by simp [h1]), if_neg hlen]
      apply ih
      · intro ax hax
        exact hne ax (List.mem_cons_of_mem a hax)
      · obtain ⟨ax, hax, hbad⟩ := hex
        rcases List.mem_cons.mp hax with rfl | hax'
        · rw [h1] at hbad
          exact absurd hbad.symm Bool.false_ne_true
        · exact ⟨ax, hax', hbad⟩
    · rw [if_pos (by simpa using h1)]

/-- With every axis strictly increasing (so every assertion passes), an
empty axis makes the encode loop abort at the `ax[0]` read. -/
theorem checkAxes_empty_axis (axes : List (List ℚ))
    (hinc : ∀ ax ∈ axes, strictlyIncr ax = true) (hex : ∃ ax ∈ axes, ax = []) :
    checkAxes axes = some .indexError := by
  induction axes with
  | nil =>
    obtain ⟨ax, hmem, _⟩ := hex
    exact absurd hmem (List.not_mem_nil ax)
  | cons a t ih =>
    simp only [checkAxes]
    rw [if_neg (by simp [hinc a (List.mem_cons_self a t)])]
    by_cases h2 : a.length = 0
    · rw [if_pos h2]
    · rw [if_neg h2]
      apply ih
      · intro ax hax
        exact hinc ax (List.mem_cons_of_mem a hax)
      · obtain ⟨ax, hax, hemp⟩ := hex
        rcases List.mem_cons.mp hax with rfl | hax'
        · exact absurd (by rw [hemp]; rfl) h2
        · exact ⟨ax, hax', hemp⟩

/-- When the rank assertion and every per-axis check pass, construction
continues with the remaining steps. -/
theorem gridInit_eq_core (axes : List (List ℚ)) (vals : List ℚ) (tol : ℚ)
    (h5 : ¬ 5 < axes.length) (hchk : checkAxes axes = none) :
    gridInit axes vals tol = gridInitCore axes vals tol := by
  unfold gridInit
  rw [if_neg h5, hchk]

/-- A failing per-axis check aborts construction with that failure. -/
theorem gridInit_error_of_check (axes : List (List ℚ)) (vals : List ℚ) (tol : ℚ)
    (e : BuildError) (h5 : ¬ 5 < axes.length) (hchk : checkAxes axes = some e) :
    gridInit axes vals tol = .error e := by
  unfold gridInit
  rw [if_neg h5, hchk]

/-- Everything `__init__` guarantees about a successfully built
interpolator: the dimension bookkeeping, the strictly-increasing check on
every input axis, the stored encoded axes and lengths, the stride chain
`v=1, u=v*v_len, z=u*u_len, y=z*z_len, x=y*y_len`, and the shape
assertion `len(values) = x_stride * x_len`. -/
theorem gridInit_ok (axes : List (List ℚ)) (vals : List ℚ) (tol : ℚ) (g : GridInterpolator)
    (h : gridInit axes vals tol = .ok g) :
    g.ndim = axes.length ∧ 1 ≤ axes.length ∧ axes.length ≤ 5 ∧
    (∀ ax ∈ axes, strictlyIncr ax = true) ∧
    (∀ k, k < axes.length → axisOf g k = encodeAxis (axes.getD k []) tol) ∧
    (∀ k, k < axes.length → lenOf g k = (axes.getD k []).length) ∧
    (∀ k, axes.length ≤ k → k < 5 → lenOf g k = 1) ∧
    g.v_stride = 1 ∧ g.u_stride = g.v_stride * g.v_len ∧ g.z_stride = g.u_stride * g.u_len ∧
    g.y_stride = g.z_stride * g.z_len ∧ g.x_stride = g.y_stride * g.y_len ∧
    vals.length = g.x_stride * g.x_len ∧ g.values = vals ∧
    vals.length = (axes.map List.length).prod ∧
    g.x_len = lenOf g 0 ∧ g.y_len = lenOf g 1 ∧ g.z_len = lenOf g 2 ∧
    g.u_len = lenOf g 3 ∧ g.v_len = lenOf g 4 := by
  by_cases h1 : 5 < axes.length
  · unfold gridInit at h
    rw [if_pos h1] at h
    exact absurd h (by simp)
  rcases hchk : checkAxes axes with _ | e
  case neg.some =>
    rw [gridInit_error_of_check axes vals tol e h1 hchk] at h
    exact absurd h (by simp)
  case neg.none =>
  rw [gridInit_eq_core axes vals tol h1 hchk] at h
  have hallne := (checkAxes_eq_none axes).mp hchk
  unfold gridInitCore at h
  by_cases h3 : axes.length = 0
  · rw [if_pos h3] at h; exact absurd h (by simp)
  rw [if_neg h3] at h
  by_cases h4 : vals.length =
      (axes.map List.length).getD 4 1 * (axes.map List.length).getD 3 1
        * (axes.map List.length).getD 2 1 * (axes.map List.length).getD 1 1
        * (axes.map List.length).getD 0 1
  · rw [if_pos h4] at h
    have hg : _ = g := Except.ok.inj h
    subst hg
    refine ⟨rfl, by omega, by omega, ?_, ?_, ?_, ?_, rfl, ?_, ?_, ?_, ?_, ?_, rfl, ?_,
      rfl, rfl, rfl, rfl, rfl⟩
    · intro ax hax
      exact (hallne ax hax).1
    · intro k hk
      have hk5 : k < 5 := by omega
      interval_cases k <;>
        simp only [axisOf] <;> exact getD_map_encode axes tol _ (by omega)
    · intro k hk
      have hk5 : k < 5 := by omega
      interval_cases k <;>
        simp only [lenOf] <;> exact getD_map_length axes _ (by omega)
    · intro k hk hk5
      interval_cases k <;> simp only [lenOf] <;> exact getD_map_length_ge axes _ (by omega)
    · simp only [one_mul]
    · simp only [one_mul]
    · simp only [one_mul]
    · simp only [one_mul]
    · simp only [one_mul]
      exact h4
    · rw [h4]
      exact prod_lens axes (by omega)
  · rw [if_neg h4] at h; exact absurd h (by simp)

/-! ### Claim theorems -/

/-- C1: exact-maximum rule.  For every axis of length n >= 2 stored in the
compact uniform form (start `a`, inverse step `(n-1)/(b-a)`), and for every
strictly increasing axis of length n >= 3 stored explicitly (the only
explicit axes the encoder produces), querying `_locatePoint_` exactly at
the axis maximum returns index `n-2` with weight 1 — identically for the
two representations. -/
theorem c1_exact_maximum :
    (∀ (a b : ℚ) (n : ℕ), 2 ≤ n → a < b →
      locatePoint (.fin b) [a, ((n : ℚ) - 1) / (b - a), 0] n = ((n : ℤ) - 2, 1)) ∧
    (∀ ax : List ℚ, ax.Pairwise (· < ·) → 3 ≤ ax.length →
      locatePoint (.fin (ax.getD (ax.length - 1) 0)) ax ax.length
        = ((ax.length : ℤ) - 2, 1)) := by
  constructor
  · intro a b n hn hab
    have hn2 : (2 : ℚ) ≤ (n : ℚ) := by exact_mod_cast hn
    have hinv : 0 < ((n : ℚ) - 1) / (b - a) := div_pos (by linarith) (by linarith)
    have hmax : a + ((n : ℚ) - 1) / (((n : ℚ) - 1) / (b - a)) = b := by
      have hn1 : ((n : ℚ) - 1) ≠ 0 := by linarith
      have hba : b - a ≠ 0 := by linarith
      field_simp
    have h := locUniform_max a (((n : ℚ) - 1) / (b - a)) n
    rw [hmax] at h
    show locFin b _ n = _
    rw [locFin_uniform_rep b a _ hinv n]
    exact h
  · intro ax hax h3
    show locFin _ ax ax.length = _
    rw [locFin_explicit_rep _ ax hax h3]
    exact locExplicit_max ax ax.length

/-- Witness for C1 at a three-point axis: the uniform form of `[0,1,2]`
and the explicit axis `[0,1,3]`, both queried at their maximum, return
index 1 with weight 1. -/
theorem c1_exact_maximum_witness :
    locatePoint (.fin 2) [0, 1, 0] 3 = (1, 1) ∧
    locatePoint (.fin 3) [0, 1, 3] 3 = (1, 1) := by
  constructor
  · have h := c1_exact_maximum.1 0 2 3 (by norm_num) (by norm_num)
    norm_num at h
    exact h
  · have h := c1_exact_maximum.2 [0, 1, 3] (by decide) (by norm_num)
    norm_num [List.getD_cons_succ, List.getD_cons_zero] at h
    exact h

/-- C9: termination of the binary search.  On a strictly increasing
explicit axis and any finite in-bounds point strictly below the axis
maximum, the search loop (with fuel `length`, more than the `high - low`
any run consumes) reaches an index with `axis[i] <= p < axis[i+1]`, and
`_locatePoint_` returns that index with the interpolation weight. -/
theorem c9_search_terminates (ax : List ℚ) (hax : ax.Pairwise (· < ·)) (h3 : 3 ≤ ax.length)
    (p : ℚ) (hlo : ax.getD 0 0 ≤ p) (hhi : p < ax.getD (ax.length - 1) 0) :
    ∃ i, searchGo p ax ax.length 0 (ax.length - 1) = some i ∧
      ax.getD i 0 ≤ p ∧ p < ax.getD (i + 1) 0 ∧
      locatePoint (.fin p) ax ax.length
        = ((i : ℤ), (p - ax.getD i 0) / (ax.getD (i + 1) 0 - ax.getD i 0)) := by
  obtain ⟨i, h1, h2', h3', h4', h5'⟩ := locExplicit_in ax hax (by omega) ax.length p hlo hhi
  refine ⟨i, h1, h3', h4', ?_⟩
  show locFin p ax ax.length = _
  rw [locFin_explicit_rep p ax hax h3]
  exact h5'

/-- Witness for C9 on the explicit axis `[0,1,3]` at the point 2: the
search finds index 1 and the located weight is 1/2. -/
theorem c9_search_terminates_witness :
    searchGo 2 [0, 1, 3] 3 0 2 = some 1 ∧
    locatePoint (.fin 2) [0, 1, 3] 3 = (1, 1/2) := by
  obtain ⟨i, h1, h2, h3, h4⟩ := c9_search_terminates [0, 1, 3] (by decide) (by norm_num) 2
    (by norm_num [List.getD_cons_zero]) (by norm_num [List.getD_cons_succ, List.getD_cons_zero])
  norm_num [List.getD_cons_succ, List.getD_cons_zero] at h1 h4
  have hi : searchGo 2 [0, 1, 3] 3 0 2 = some 1 := by
    norm_num [searchGo, List.getD_cons_succ, List.getD_cons_zero]
  rw [hi] at h1
  have hieq : i = 1 := (Option.some.inj h1).symm
  subst hieq
  norm_num at h4
  exact ⟨hi, h4⟩

/-- C5: axis-encoder classification.  (a) The encoder stores the compact
uniform form `[ax[0], (n-1)/(ax[n-1]-ax[0]), 0]` exactly when every
sample is within `tol * (1 + |s_i|)` of the corresponding sample `s_i` of
the evenly spaced axis with the same endpoints and count, and stores the
axis itself otherwise; (b) every exactly evenly spaced axis with positive
step is classified uniform when the tolerance is nonnegative; (c) the
geometric axis `[1,2,4,8]` at the default tolerance 1e-6 is classified
explicit. -/
theorem c5_axis_encoder :
    (∀ (ax : List ℚ) (tol : ℚ),
      ((∀ i, i < ax.length →
          |ax.getD i 0 - (linspace (ax.getD 0 0) (ax.getD (ax.length - 1) 0) ax.length).getD i 0|
            ≤ tol * (1 + |(linspace (ax.getD 0 0) (ax.getD (ax.length - 1) 0)
                ax.length).getD i 0|)) →
        encodeAxis ax tol = [ax.getD 0 0,
          ((ax.length : ℚ) - 1) / (ax.getD (ax.length - 1) 0 - ax.getD 0 0), 0]) ∧
      ((¬ ∀ i, i < ax.length →
          |ax.getD i 0 - (linspace (ax.getD 0 0) (ax.getD (ax.length - 1) 0) ax.length).getD i 0|
            ≤ tol * (1 + |(linspace (ax.getD 0 0) (ax.getD (ax.length - 1) 0)
                ax.length).getD i 0|)) →
        encodeAxis ax tol = ax)) ∧
    (∀ (a d : ℚ) (n : ℕ) (tol : ℚ), 0 < d → 2 ≤ n → 0 ≤ tol →
      encodeAxis (evenAxis a d n) tol
        = [(evenAxis a d n).getD 0 0,
            ((n : ℚ) - 1) / ((evenAxis a d n).getD (n - 1) 0 - (evenAxis a d n).getD 0 0), 0]) ∧
    encodeAxis [1, 2, 4, 8] (1/1000000) = [1, 2, 4, 8] := by
  have hcond : ∀ (ax : List ℚ) (tol : ℚ),
      (withinTol ax (linspace (ax.getD 0 0) (ax.getD (ax.length - 1) 0) ax.length) tol = true
        ↔ ∀ i, i < ax.length →
          |ax.getD i 0 - (linspace (ax.getD 0 0) (ax.getD (ax.length - 1) 0) ax.length).getD i 0|
            ≤ tol * (1 + |(linspace (ax.getD 0 0) (ax.getD (ax.length - 1) 0)
                ax.length).getD i 0|)) := by
    intro ax tol
    unfold withinTol
    rw [zip_all_iff (fun x y => decide (|x - y| ≤ tol + tol * |y|)) ax
      (linspace (ax.getD 0 0) (ax.getD (ax.length - 1) 0) ax.length) (by rw [linspace_length])]
    constructor
    · intro h i hi
      have h2 := h i hi
      simp only [decide_eq_true_eq] at h2
      have hr : tol * (1 + |(linspace (ax.getD 0 0) (ax.getD (ax.length - 1) 0)
            ax.length).getD i 0|)
          = tol + tol * |(linspace (ax.getD 0 0) (ax.getD (ax.length - 1) 0)
            ax.length).getD i 0| := by ring
      rw [hr]
      exact h2
    · intro h i hi
      simp only [decide_eq_true_eq]
      have h2 := h i hi
      have hr : tol * (1 + |(linspace (ax.getD 0 0) (ax.getD (ax.length - 1) 0)
            ax.length).getD i 0|)
          = tol + tol * |(linspace (ax.getD 0 0) (ax.getD (ax.length - 1) 0)
            ax.length).getD i 0| := by ring
      rw [hr] at h2
      exact h2
  refine ⟨?_, ?_, ?_⟩
  · intro ax tol
    constructor
    · intro h
      unfold encodeAxis
      rw [if_pos ((hcond ax tol).mpr h)]
    · intro h
      unfold encodeAxis
      rw [if_neg (fun hw => h ((hcond ax tol).mp hw))]
  · intro a d n tol hd hn htol
    have hlen : (evenAxis a d n).length = n := evenAxis_length a d n
    have hn1 : ((n : ℚ) - 1) ≠ 0 := by
      have : (2 : ℚ) ≤ (n : ℚ) := by exact_mod_cast hn
      linarith
    have hsame : ∀ i, i < n →
        (evenAxis a d n).getD i 0
          = (linspace ((evenAxis a d n).getD 0 0) ((evenAxis a d n).getD (n - 1) 0) n).getD i 0 := by
      intro i hi
      rw [evenAxis_getD a d n i hi, linspace_getD _ _ n i hi,
        evenAxis_getD a d n 0 (by omega), evenAxis_getD a d n (n - 1) (by omega)]
      have hcast : ((n - 1 : ℕ) : ℚ) = (n : ℚ) - 1 := by
        have h1 : 1 ≤ n := by omega
        push_cast [Nat.cast_sub h1]
        ring
      rw [hcast]
      field_simp
      ring
    unfold encodeAxis
    rw [hlen, if_pos]
    unfold withinTol
    rw [zip_all_iff (fun x y => decide (|x - y| ≤ tol + tol * |y|)) (evenAxis a d n)
      (linspace ((evenAxis a d n).getD 0 0) ((evenAxis a d n).getD (n - 1) 0) n)
      (by rw [hlen, linspace_length])]
    intro i hi
    rw [hlen] at hi
    simp only [decide_eq_true_eq]
    rw [← hsame i hi]
    simp only [sub_self, abs_zero]
    positivity
  · norm_num [encodeAxis, withinTol, linspace, List.range, List.range.loop,
      abs_eq_max_neg, max_def]

/-- Witness for C5: the evenly spaced axis `[0,1,2]` at the default
tolerance is stored as the compact uniform triple `[0, 1, 0]`. -/
theorem c5_axis_encoder_witness : encodeAxis [0, 1, 2] (1/1000000) = [0, 1, 0] := by
  have h := c5_axis_encoder.2.1 0 1 3 (1/1000000) (by norm_num) (by norm_num) (by norm_num)
  have hax : evenAxis 0 1 3 = [0, 1, 2] := by
    norm_num [evenAxis, List.range, List.range.loop]
  rw [hax] at h
  norm_num [List.getD_cons_succ, List.getD_cons_zero] at h
  exact h

/-- C4: representation independence.  For an exactly evenly spaced,
strictly increasing axis (step `d > 0`, at least 3 samples, so that the
explicit array form is recognized by the `axis[2] > axis[1]`
discriminator), `_locatePoint_` returns the identical (index, weight)
pair — including the not-found signal — whether the axis is stored
explicitly or in the compact uniform form `[a, 1/d, 0]` that the encoder
derives for it. -/
theorem c4_representation_independence (a d : ℚ) (hd : 0 < d) (n : ℕ) (hn : 3 ≤ n)
    (p : Fl) :
    locatePoint p (evenAxis a d n) n = locatePoint p [a, 1 / d, 0] n := by
  have hpair : (evenAxis a d n).Pairwise (· < ·) := evenAxis_pairwise a d hd n
  have hlen : (evenAxis a d n).length = n := evenAxis_length a d n
  have hcast : ((n - 1 : ℕ) : ℚ) = (n : ℚ) - 1 := by
    have h1 : 1 ≤ n := by omega
    push_cast [Nat.cast_sub h1]
    ring
  have ha0 : (evenAxis a d n).getD 0 0 = a := by
    rw [evenAxis_getD a d n 0 (by omega)]
    push_cast
    ring
  have hb : (evenAxis a d n).getD (n - 1) 0 = a + ((n : ℚ) - 1) * d := by
    rw [evenAxis_getD a d n (n - 1) (by omega), hcast]
  have hmaxu : a + ((n : ℚ) - 1) / (1 / d) = a + ((n : ℚ) - 1) * d := by
    have hdne : d ≠ 0 := hd.ne'
    field_simp
  have hinv : 0 < 1 / d := by positivity
  cases p with
  | nan => rfl
  | posInf => rfl
  | negInf => rfl
  | fin q =>
    show locFin q (evenAxis a d n) n = locFin q [a, 1 / d, 0] n
    rw [locFin_explicit_rep q (evenAxis a d n) hpair (by omega),
      locFin_uniform_rep q a (1 / d) hinv n]
    by_cases hqb : q = a + ((n : ℚ) - 1) * d
    · -- exact maximum on both paths
      have h1 : locExplicit q (evenAxis a d n) n = ((n : ℤ) - 2, 1) := by
        have h := locExplicit_max (evenAxis a d n) n
        rw [hlen, hb, ← hqb] at h
        exact h
      have h2 : locUniform q [a, 1 / d, 0] n = ((n : ℤ) - 2, 1) := by
        have h := locUniform_max a (1 / d) n
        rw [hmaxu, ← hqb] at h
        exact h
      rw [h1, h2]
    · by_cases hin : a ≤ q ∧ q < a + ((n : ℚ) - 1) * d
      · -- in range: binary search against uniform arithmetic
        obtain ⟨i, _, hi2, hbr1, hbr2, heq⟩ := locExplicit_in (evenAxis a d n) hpair
          (by omega) n q (by rw [ha0]; exact hin.1) (by rw [hlen, hb]; exact hin.2)
        rw [hlen] at hi2
        have hgi : (evenAxis a d n).getD i 0 = a + (i : ℚ) * d :=
          evenAxis_getD a d n i (by omega)
        have hgi1 : (evenAxis a d n).getD (i + 1) 0 = a + ((i : ℚ) + 1) * d := by
          rw [evenAxis_getD a d n (i + 1) (by omega)]
          push_cast
          ring
        rw [hgi] at hbr1
        rw [hgi1] at hbr2
        have hqa : (q - a) * (1 / d) = (q - a) / d := by
          rw [one_div, div_eq_mul_inv]
        have hfl : ⌊(q - a) * (1 / d)⌋ = (i : ℤ) := by
          rw [hqa, Int.floor_eq_iff]
          constructor
          · rw [le_div_iff₀ hd]
            push_cast
            linarith
          · rw [div_lt_iff₀ hd]
            push_cast
            linarith
        obtain ⟨hu, _, _⟩ := locUniform_in q a (1 / d) n hinv hin.1
          (by rw [hmaxu]; exact hin.2)
        rw [heq, hu, hfl, hgi, hgi1, Prod.mk.injEq]
        refine ⟨rfl, ?_⟩
        have hdd : a + ((i : ℚ) + 1) * d - (a + (i : ℚ) * d) = d := by ring
        rw [hdd]
        push_cast
        field_simp
        ring
      · -- out of range on both paths
        have hout : q < a ∨ a + ((n : ℚ) - 1) * d < q := by
          rcases not_and_or.mp hin with h | h
          · exact Or.inl (not_le.mp h)
          · exact Or.inr (lt_of_le_of_ne (not_lt.mp h) (fun hh => hqb hh.symm))
        have h1 : locExplicit q (evenAxis a d n) n = (-1, 0) := by
          apply locExplicit_out
          · rw [ha0, hlen, hb]
            exact hout
          · rw [hlen, hb]
            exact hqb
        have h2 : locUniform q [a, 1 / d, 0] n = (-1, 0) := by
          apply locUniform_out
          · rcases hout with h | h
            · exact Or.inl h
            · refine Or.inr ?_
              rw [hmaxu]
              exact h.le
          · rw [hmaxu]
            exact hqb
        rw [h1, h2]

/-- Witness for C4 on the axis `0,1,2` (a = 0, d = 1, n = 3) at an
interior point: both representations locate `3/2` at index 1 with
weight 1/2. -/
theorem c4_representation_independence_witness :
    locatePoint (.fin (3/2)) (evenAxis 0 1 3) 3 = locatePoint (.fin (3/2)) [0, 1, 0] 3 ∧
    locatePoint (.fin (3/2)) [0, 1, 0] 3 = (1, 1/2) := by
  constructor
  · have h := c4_representation_independence 0 1 (by norm_num) 3 (by norm_num) (.fin (3/2))
    norm_num at h
    exact h
  · norm_num [locatePoint, locFin, locUniform, locExplicit, ratTrunc,
      List.getD_cons_succ, List.getD_cons_zero, Int.floor_eq_iff]

/-- NaN-result characterization of `_interp1d`: the call returns the
sentinel exactly when the locate failed. -/
theorem interp1d_none (g : GridInterpolator) (c : Fl) :
    interp1d g c = none ↔ (locX g c).1 < 0 := by
  unfold interp1d
  split_ifs with h <;> simp [h]

/-- NaN-result characterization of `_interp2d`. -/
theorem interp2d_none (g : GridInterpolator) (x y : Fl) :
    interp2d g x y = none ↔ (locX g x).1 < 0 ∨ (locY g y).1 < 0 := by
  unfold interp2d
  split_ifs with h <;> simp [h]

/-- NaN-result characterization of `_interp3d`. -/
theorem interp3d_none (g : GridInterpolator) (x y z : Fl) :
    interp3d g x y z = none ↔ (locX g x).1 < 0 ∨ (locY g y).1 < 0 ∨ (locZ g z).1 < 0 := by
  unfold interp3d
  split_ifs with h <;> simp [h]

/-- NaN-result characterization of `_interp4d`. -/
theorem interp4d_none (g : GridInterpolator) (x y z u : Fl) :
    interp4d g x y z u = none ↔
      (locX g x).1 < 0 ∨ (locY g y).1 < 0 ∨ (locZ g z).1 < 0 ∨ (locU g u).1 < 0 := by
  unfold interp4d
  split_ifs with h <;> simp [h]

/-- NaN-result characterization of `_interp5d`. -/
theorem interp5d_none (g : GridInterpolator) (x y z u v : Fl) :
    interp5d g x y z u v = none ↔
      (locX g x).1 < 0 ∨ (locY g y).1 < 0 ∨ (locZ g z).1 < 0 ∨ (locU g u).1 < 0
        ∨ (locV g v).1 < 0 := by
  unfold interp5d
  split_ifs with h <;> simp [h]

/-- An in-range read of `getD` with default is a member of the list. -/
theorem getD_mem_of_lt (axes : List (List ℚ)) (k : ℕ) (hk : k < axes.length) :
    axes.getD k [] ∈ axes := by
  rw [List.getD_eq_getElem _ _ hk]
  exact List.getElem_mem hk

/-- C2: sentinel law.  For every successfully built interpolator (all axes
of length at least 2, nonnegative tolerance) and every query vector of the
interpolator's rank, `interp` returns the NaN sentinel (modelled as
`none`; the model is total, so no exception is possible) exactly when some
coordinate is NaN, infinite, strictly below its axis minimum, or strictly
above its axis maximum; on every other input it returns `some` finite
blend of the stored values. -/
theorem c2_sentinel_law (axes : List (List ℚ)) (vals : List ℚ) (tol : ℚ)
    (g : GridInterpolator) (htol : 0 ≤ tol) (hlen2 : ∀ ax ∈ axes, 2 ≤ ax.length)
    (hok : gridInit axes vals tol = .ok g) (x : List Fl) (hx : x.length = g.ndim) :
    interp g x = none ↔
      ∃ k, k < g.ndim ∧ badCoord (x.getD k Fl.nan) (axes.getD k []) := by
  obtain ⟨hnd, h1, h5, hsi, haxf, hlenf, _, _, _, _, _, _, _, _, _, _, _, _, _, _⟩ :=
    gridInit_ok axes vals tol g hok
  have hloc : ∀ k, k < axes.length →
      (((locatePoint (x.getD k Fl.nan) (axisOf g k) (lenOf g k)).1 < 0)
        ↔ badCoord (x.getD k Fl.nan) (axes.getD k [])) := by
    intro k hk
    rw [haxf k hk, hlenf k hk]
    have hp : (axes.getD k []).Pairwise (· < ·) :=
      (strictlyIncr_iff _).mp (hsi _ (getD_mem_of_lt axes k hk))
    exact (locate_encode (axes.getD k []) tol htol hp
      (hlen2 _ (getD_mem_of_lt axes k hk)) _).1
  have hcase : g.ndim = 1 ∨ g.ndim = 2 ∨ g.ndim = 3 ∨ g.ndim = 4 ∨ g.ndim = 5 := by omega
  rcases hcase with h | h | h | h | h
  · rw [show interp g x = interp1d g (x.getD 0 Fl.nan) from by rw [interp, if_pos h]]
    rw [interp1d_none]
    rw [show (locX g (x.getD 0 Fl.nan)).1 < 0 ↔ badCoord (x.getD 0 Fl.nan) (axes.getD 0 [])
      from hloc 0 (by omega)]
    constructor
    · intro hb
      exact ⟨0, by omega, hb⟩
    · rintro ⟨k, hk, hb⟩
      have : k = 0 := by omega
      rw [this] at hb
      exact hb
  · rw [show interp g x = interp2d g (x.getD 0 Fl.nan) (x.getD 1 Fl.nan) from by
      rw [interp, if_neg (by omega), if_pos h]]
    rw [interp2d_none]
    rw [show (locX g (x.getD 0 Fl.nan)).1 < 0 ↔ badCoord (x.getD 0 Fl.nan) (axes.getD 0 [])
      from hloc 0 (by omega)]
    rw [show (locY g (x.getD 1 Fl.nan)).1 < 0 ↔ badCoord (x.getD 1 Fl.nan) (axes.getD 1 [])
      from hloc 1 (by omega)]
    constructor
    · rintro (hb | hb)
      · exact ⟨0, by omega, hb⟩
      · exact ⟨1, by omega, hb⟩
    · rintro ⟨k, hk, hb⟩
      rw [h] at hk
      interval_cases k
      · exact Or.inl hb
      · exact Or.inr hb
  · rw [show interp g x = interp3d g (x.getD 0 Fl.nan) (x.getD 1 Fl.nan) (x.getD 2 Fl.nan)
      from by rw [interp, if_neg (by omega), if_neg (by omega), if_pos h]]
    rw [interp3d_none]
    rw [show (locX g (x.getD 0 Fl.nan)).1 < 0 ↔ badCoord (x.getD 0 Fl.nan) (axes.getD 0 [])
      from hloc 0 (by omega)]
    rw [show (locY g (x.getD 1 Fl.nan)).1 < 0 ↔ badCoord (x.getD 1 Fl.nan) (axes.getD 1 [])
      from hloc 1 (by omega)]
    rw [show (locZ g (x.getD 2 Fl.nan)).1 < 0 ↔ badCoord (x.getD 2 Fl.nan) (axes.getD 2 [])
      from hloc 2 (by omega)]
    constructor
    · rintro (hb | hb | hb)
      · exact ⟨0, by omega, hb⟩
      · exact ⟨1, by omega, hb⟩
      · exact ⟨2, by omega, hb⟩
    · rintro ⟨k, hk, hb⟩
      rw [h] at hk
      interval_cases k
      · exact Or.inl hb
      · exact Or.inr (Or.inl hb)
      · exact Or.inr (Or.inr hb)
  · rw [show interp g x
        = interp4d g (x.getD 0 Fl.nan) (x.getD 1 Fl.nan) (x.getD 2 Fl.nan) (x.getD 3 Fl.nan)
      from by rw [interp, if_neg (by omega), if_neg (by omega), if_neg (by omega), if_pos h]]
    rw [interp4d_none]
    rw [show (locX g (x.getD 0 Fl.nan)).1 < 0 ↔ badCoord (x.getD 0 Fl.nan) (axes.getD 0 [])
      from hloc 0 (by omega)]
    rw [show (locY g (x.getD 1 Fl.nan)).1 < 0 ↔ badCoord (x.getD 1 Fl.nan) (axes.getD 1 [])
      from hloc 1 (by omega)]
    rw [show (locZ g (x.getD 2 Fl.nan)).1 < 0 ↔ badCoord (x.getD 2 Fl.nan) (axes.getD 2 [])
      from hloc 2 (by omega)]
    rw [show (locU g (x.getD 3 Fl.nan)).1 < 0 ↔ badCoord (x.getD 3 Fl.nan) (axes.getD 3 [])
      from hloc 3 (by omega)]
    constructor
    · rintro (hb | hb | hb | hb)
      · exact ⟨0, by omega, hb⟩
      · exact ⟨1, by omega, hb⟩
      · exact ⟨2, by omega, hb⟩
      · exact ⟨3, by omega, hb⟩
    · rintro ⟨k, hk, hb⟩
      rw [h] at hk
      interval_cases k
      · exact Or.inl hb
      · exact Or.inr (Or.inl hb)
      · exact Or.inr (Or.inr (Or.inl hb))
      · exact Or.inr (Or.inr (Or.inr hb))
  · rw [show interp g x
        = interp5d g (x.getD 0 Fl.nan) (x.getD 1 Fl.nan) (x.getD 2 Fl.nan) (x.getD 3 Fl.nan)
          (x.getD 4 Fl.nan)
      from by rw [interp, if_neg (by omega), if_neg (by omega), if_neg (by omega),
        if_neg (by omega), if_pos h]]
    rw [interp5d_none]
    rw [show (locX g (x.getD 0 Fl.nan)).1 < 0 ↔ badCoord (x.getD 0 Fl.nan) (axes.getD 0 [])
      from hloc 0 (by omega)]
    rw [show (locY g (x.getD 1 Fl.nan)).1 < 0 ↔ badCoord (x.getD 1 Fl.nan) (axes.getD 1 [])
      from hloc 1 (by omega)]
    rw [show (locZ g (x.getD 2 Fl.nan)).1 < 0 ↔ badCoord (x.getD 2 Fl.nan) (axes.getD 2 [])
      from hloc 2 (by omega)]
    rw [show (locU g (x.getD 3 Fl.nan)).1 < 0 ↔ badCoord (x.getD 3 Fl.nan) (axes.getD 3 [])
      from hloc 3 (by omega)]
    rw [show (locV g (x.getD 4 Fl.nan)).1 < 0 ↔ badCoord (x.getD 4 Fl.nan) (axes.getD 4 [])
      from hloc 4 (by omega)]
    constructor
    · rintro (hb | hb | hb | hb | hb)
      · exact ⟨0, by omega, hb⟩
      · exact ⟨1, by omega, hb⟩
      · exact ⟨2, by omega, hb⟩
      · exact ⟨3, by omega, hb⟩
      · exact ⟨4, by omega, hb⟩
    · rintro ⟨k, hk, hb⟩
      rw [h] at hk
      interval_cases k
      · exact Or.inl hb
      · exact Or.inr (Or.inl hb)
      · exact Or.inr (Or.inr (Or.inl hb))
      · exact Or.inr (Or.inr (Or.inr (Or.inl hb)))
      · exact Or.inr (Or.inr (Or.inr (Or.inr hb)))

/-- One-dimensional interpolator over axis `[0,1]` with values `[3,4]`,
used to witness C2. -/
def c2Grid : GridInterpolator :=
  ⟨1, 2, 1, 1, 1, 1, 1, 1, 1, 1, 1, [0, 1, 0], [], [], [], [], [3, 4]⟩

/-- Witness for C2: on the interpolator built from axis `[0,1]` and
values `[3,4]`, the out-of-range query 2 yields the sentinel and the
in-range query 1/2 does not. -/
theorem c2_sentinel_law_witness :
    interp c2Grid [Fl.fin 2] = none ∧ interp c2Grid [Fl.fin (1/2)] ≠ none := by
  have hok : gridInit [[0, 1]] [3, 4] (1/1000000) = .ok c2Grid := by
    norm_num [gridInit, gridInitCore, checkAxes, strictlyIncr, encodeAxis, withinTol, linspace, List.range,
      List.range.loop, abs_eq_max_neg, max_def, c2Grid]
  have hlen2 : ∀ ax ∈ [[(0 : ℚ), 1]], 2 ≤ ax.length := by
    intro ax hax
    simp only [List.mem_singleton] at hax
    rw [hax]
    norm_num
  constructor
  · apply (c2_sentinel_law [[0, 1]] [3, 4] (1/1000000) c2Grid (by norm_num) hlen2 hok
      [Fl.fin 2] rfl).mpr
    refine ⟨0, by norm_num [c2Grid], ?_⟩
    simp only [List.getD_cons_zero, badCoord]
    norm_num
  · intro hnone
    have hb := (c2_sentinel_law [[0, 1]] [3, 4] (1/1000000) c2Grid (by norm_num) hlen2 hok
      [Fl.fin (1/2)] rfl).mp hnone
    obtain ⟨k, hk, hb⟩ := hb
    have hk0 : k = 0 := by
      have : c2Grid.ndim = 1 := rfl
      omega
    rw [hk0] at hb
    simp only [List.getD_cons_zero, badCoord] at hb
    norm_num at hb

/-- The interpolator built from axes `x=[0,1,2]`, `y=[0,1]` and values
`[0,1,10,11,20,21]` (x-major flattening): both axes are classified
uniform, the x stride is 2 and the y stride 1. -/
def c3Grid : GridInterpolator :=
  ⟨2, 3, 2, 1, 1, 1, 2, 1, 1, 1, 1, [0, 1, 0], [0, 1, 0], [], [], [], [0, 1, 10, 11, 20, 21]⟩

/-- C3: end-to-end 2-D scenario.  Construction from `x=[0,1,2]`,
`y=[0,1]`, values `[0,1,10,11,20,21]` succeeds and produces `c3Grid`, and
`interp` returns 5 at `(0.5, 0)`, 11 at `(1, 1)`, 20.5 at `(2, 0.5)`, and
the NaN sentinel at `(2.01, 0)`. -/
theorem c3_end_to_end :
    gridInit [[0, 1, 2], [0, 1]] [0, 1, 10, 11, 20, 21] (1/1000000) = .ok c3Grid ∧
    interp c3Grid [.fin (1/2), .fin 0] = some 5 ∧
    interp c3Grid [.fin 1, .fin 1] = some 11 ∧
    interp c3Grid [.fin 2, .fin (1/2)] = some (41/2) ∧
    interp c3Grid [.fin (201/100), .fin 0] = none := by
  refine ⟨?_, ?_, ?_, ?_, ?_⟩
  · norm_num [gridInit, gridInitCore, checkAxes, strictlyIncr, encodeAxis, withinTol, linspace, List.range,
      List.range.loop, abs_eq_max_neg, max_def, c3Grid]
  · norm_num [interp, interp2d, interp2dAt, locX, locY, locatePoint, locFin, locUniform,
      locExplicit, ratTrunc, c3Grid, Int.floor_eq_iff]
  · norm_num [interp, interp2d, interp2dAt, locX, locY, locatePoint, locFin, locUniform,
      locExplicit, ratTrunc, c3Grid, Int.floor_eq_iff]
  · norm_num [interp, interp2d, interp2dAt, locX, locY, locatePoint, locFin, locUniform,
      locExplicit, ratTrunc, c3Grid, Int.floor_eq_iff]
  · norm_num [interp, interp2d, interp2dAt, locX, locY, locatePoint, locFin, locUniform,
      locExplicit, ratTrunc, c3Grid, Int.floor_eq_iff]

/-- C6: stride/shape invariant.  After a successful construction the
strides satisfy `v=1, u=v*v_len, z=u*u_len, y=z*z_len, x=y*y_len`
(last-declared axis fastest), the stored per-dimension lengths are the
declared axis lengths (1 for dimensions past the rank), and the value
buffer length equals the product of all declared axis lengths. -/
theorem c6_stride_shape (axes : List (List ℚ)) (vals : List ℚ) (tol : ℚ)
    (g : GridInterpolator) (hok : gridInit axes vals tol = .ok g) :
    g.v_stride = 1 ∧ g.u_stride = g.v_stride * g.v_len ∧ g.z_stride = g.u_stride * g.u_len ∧
    g.y_stride = g.z_stride * g.z_len ∧ g.x_stride = g.y_stride * g.y_len ∧
    g.values.length = (axes.map List.length).prod ∧
    g.values.length = g.x_stride * g.x_len ∧
    (∀ k, k < axes.length → lenOf g k = (axes.getD k []).length) ∧
    (∀ k, axes.length ≤ k → k < 5 → lenOf g k = 1) := by
  obtain ⟨_, _, _, _, _, hlenf, hpast, hv, hu, hz, hy, hx, hshape, hvals, hprod, _, _, _, _, _⟩ :=
    gridInit_ok axes vals tol g hok
  refine ⟨hv, hu, hz, hy, hx, ?_, ?_, hlenf, hpast⟩
  · rw [hvals]
    exact hprod
  · rw [hvals]
    exact hshape

/-- Witness for C6 on the 2-D build from axes `[0,1,2]` and `[0,1]`:
x stride 2, y stride 1, six stored values. -/
theorem c6_stride_shape_witness :
    ∃ g, gridInit [[0, 1, 2], [0, 1]] [0, 1, 10, 11, 20, 21] (1/1000000) = .ok g ∧
      g.x_stride = g.y_stride * g.y_len ∧ g.values.length = 6 := by
  refine ⟨⟨2, 3, 2, 1, 1, 1, 2, 1, 1, 1, 1, [0, 1, 0], [0, 1, 0], [], [], [],
    [0, 1, 10, 11, 20, 21]⟩, ?_, ?_, ?_⟩
  · norm_num [gridInit, gridInitCore, checkAxes, strictlyIncr, encodeAxis, withinTol, linspace, List.range,
      List.range.loop, abs_eq_max_neg, max_def]
  · have h := c6_stride_shape [[0, 1, 2], [0, 1]] [0, 1, 10, 11, 20, 21] (1/1000000)
      ⟨2, 3, 2, 1, 1, 1, 2, 1, 1, 1, 1, [0, 1, 0], [0, 1, 0], [], [], [],
        [0, 1, 10, 11, 20, 21]⟩
      (by norm_num [gridInit, gridInitCore, checkAxes, strictlyIncr, encodeAxis, withinTol, linspace, List.range,
        List.range.loop, abs_eq_max_neg, max_def])
    exact h.2.2.2.2.1
  · norm_num

/-- C7 counterexample: a length-1 axis is not rejected.  The vacuous
strictly-increasing check passes (`np.diff` of one sample is empty), so
construction with axis `[5]` and the matching single value `[7]` succeeds
instead of failing with `InvalidAxis`. -/
theorem c7_counterexample :
    gridInit [[(5 : ℚ)]] [(7 : ℚ)] (1/1000000)
      = .ok ⟨1, 1, 1, 1, 1, 1, 1, 1, 1, 1, 1, [5, 0, 0], [], [], [], [], [7]⟩ := by
  norm_num [gridInit, gridInitCore, checkAxes, strictlyIncr, encodeAxis, withinTol, linspace, List.range,
    List.range.loop, abs_eq_max_neg, max_def]

/-- C7 (amended): construction fails with the rank assertion
(DimensionError) for rank above 5; aborts with an index error for rank 0
(the `axes[0]` read) and for any empty axis (the `ax[0]` read in the
encode loop, reached because the strictly-increasing assertion is vacuous
on an empty `np.diff`); fails with the strictly-increasing assertion
(InvalidAxis) when some axis is not strictly increasing and no earlier
empty axis pre-empts it (stated for all-nonempty axes); and fails with
the shape assertion (ShapeMismatch) when all axes pass but the value
count does not equal the product of the axis lengths.  Axes of length 1,
however, are not rejected (see the counterexample). -/
theorem c7_construction_errors :
    (∀ (axes : List (List ℚ)) (vals : List ℚ) (tol : ℚ), 5 < axes.length →
      gridInit axes vals tol = .error .dimensionError) ∧
    (∀ (vals : List ℚ) (tol : ℚ), gridInit [] vals tol = .error .indexError) ∧
    (∀ (axes : List (List ℚ)) (vals : List ℚ) (tol : ℚ), axes.length ≤ 5 →
      (∀ ax ∈ axes, ax ≠ []) → (∃ ax ∈ axes, strictlyIncr ax = false) →
      gridInit axes vals tol = .error .invalidAxis) ∧
    (∀ (axes : List (List ℚ)) (vals : List ℚ) (tol : ℚ), axes.length ≤ 5 →
      (∀ ax ∈ axes, strictlyIncr ax = true) → (∃ ax ∈ axes, ax = []) →
      gridInit axes vals tol = .error .indexError) ∧
    (∀ (axes : List (List ℚ)) (vals : List ℚ) (tol : ℚ), axes.length ≤ 5 →
      1 ≤ axes.length → (∀ ax ∈ axes, strictlyIncr ax = true ∧ ax ≠ []) →
      vals.length ≠ (axes.map List.length).prod →
      gridInit axes vals tol = .error .shapeMismatch) := by
  refine ⟨?_, ?_, ?_, ?_, ?_⟩
  · intro axes vals tol h
    unfold gridInit
    rw [if_pos h]
  · intro vals tol
    rw [gridInit_eq_core [] vals tol (by norm_num) rfl]
    simp [gridInitCore]
  · intro axes vals tol h5 hne hex
    exact gridInit_error_of_check axes vals tol _ (by omega) (checkAxes_invalid axes hne hex)
  · intro axes vals tol h5 hinc hex
    exact gridInit_error_of_check axes vals tol _ (by omega)
      (checkAxes_empty_axis axes hinc hex)
  · intro axes vals tol h5 h1 hall hne
    rw [gridInit_eq_core axes vals tol (by omega) ((checkAxes_eq_none axes).mpr hall)]
    unfold gridInitCore
    rw [if_neg (by omega), if_neg (by
      rw [prod_lens axes h5]
      exact hne)]

/-- Witness for C7's amended error contract: six axes trigger the rank
failure, a decreasing axis triggers the invalid-axis failure, an empty
axis triggers the index-error abort, and a value count mismatch triggers
the shape failure. -/
theorem c7_construction_errors_witness :
    gridInit [[0, 1], [0, 1], [0, 1], [0, 1], [0, 1], [0, 1]] [] 0
        = .error .dimensionError ∧
    gridInit [[(1 : ℚ), 0]] [] 0 = .error .invalidAxis ∧
    gridInit [([] : List ℚ)] [] 0 = .error .indexError ∧
    gridInit [[(0 : ℚ), 1]] [1, 2, 3] 0 = .error .shapeMismatch := by
  refine ⟨?_, ?_, ?_, ?_⟩
  · exact c7_construction_errors.1 _ _ _ (by norm_num)
  · apply c7_construction_errors.2.2.1 _ _ _ (by norm_num)
    · intro ax hax
      simp only [List.mem_singleton] at hax
      rw [hax]
      simp
    · exact ⟨[1, 0], by simp, by decide⟩
  · apply c7_construction_errors.2.2.2.1 _ _ _ (by norm_num)
    · intro ax hax
      simp only [List.mem_singleton] at hax
      rw [hax]
      rfl
    · exact ⟨[], by simp, rfl⟩
  · apply c7_construction_errors.2.2.2.2 _ _ _ (by norm_num) (by norm_num)
    · intro ax hax
      simp only [List.mem_singleton] at hax
      rw [hax]
      exact ⟨by decide, by simp⟩
    · norm_num

/-- C8 counterexample: `uniform_ppf` performs no parameter validation.
With the invalid parameterization `xmax = 0 < 1 = xmin` (non-positive
width) it returns the ordinary finite value 1/2, not the NaN sentinel. -/
theorem c8_counterexample : uniform_ppf (1/2) 1 0 = 1/2 ∧ (0 : ℚ) < 1 := by
  constructor
  · norm_num [uniform_ppf]
  · norm_num

/-- C8 (amended): the probability primitives are pure functions of their
arguments; `normal_lpdf` checks its scale and returns the NaN sentinel
for every `sigma <= 0` (for any library log and pi), while `uniform_ppf`
applies no validation and always returns its closed-form value. -/
theorem c8_primitives :
    (∀ (logFn : ℚ → ℚ) (piC x mean sigma : ℚ), sigma ≤ 0 →
      normal_lpdf logFn piC x mean sigma = Fl.nan) ∧
    (∀ x xmin xmax : ℚ, uniform_ppf x xmin xmax = xmin + x * (xmax - xmin)) := by
  constructor
  · intro logFn piC x mean sigma h
    unfold normal_lpdf
    rw [if_pos h]
  · intro x xmin xmax
    rfl

/-- Witness for C8: `normal_lpdf` at `sigma = -1` is the sentinel, and
`uniform_ppf(1/2, 0, 2) = 1`. -/
theorem c8_primitives_witness :
    normal_lpdf (fun q => q) 3 0 0 (-1) = Fl.nan ∧ uniform_ppf (1/2) 0 2 = 1 := by
  constructor
  · exact c8_primitives.1 (fun q => q) 3 0 0 (-1) (by norm_num)
  · have h := c8_primitives.2 (1/2) 0 2
    rw [h]
    norm_num

/-- Mixed-radix bound: with the stride chain of the constructor and every
per-dimension offset strictly below its length, the flat offset stays
strictly below `x_stride * x_len`. -/
theorem radix_bound (a1 a2 a3 a4 a5 l1 l2 l3 l4 l5 s1 s2 s3 s4 s5 : ℕ)
    (hs5 : s5 = 1) (hs4 : s4 = s5 * l5) (hs3 : s3 = s4 * l4) (hs2 : s2 = s3 * l3)
    (hs1 : s1 = s2 * l2)
    (h1 : a1 + 1 ≤ l1) (h2 : a2 + 1 ≤ l2) (h3 : a3 + 1 ≤ l3) (h4 : a4 + 1 ≤ l4)
    (h5 : a5 + 1 ≤ l5) :
    a1 * s1 + a2 * s2 + a3 * s3 + a4 * s4 + a5 * s5 < s1 * l1 := by
  subst hs5 hs4 hs3 hs2 hs1
  have c5 : a5 * 1 + 1 ≤ 1 * l5 := by omega
  have c4 : a4 * (1 * l5) + (a5 * 1 + 1) ≤ 1 * l5 * l4 := by
    calc a4 * (1 * l5) + (a5 * 1 + 1) ≤ a4 * (1 * l5) + 1 * l5 := Nat.add_le_add_left c5 _
      _ = (a4 + 1) * (1 * l5) := by ring
      _ ≤ l4 * (1 * l5) := Nat.mul_le_mul_right _ h4
      _ = 1 * l5 * l4 := by ring
  have c3 : a3 * (1 * l5 * l4) + (a4 * (1 * l5) + (a5 * 1 + 1)) ≤ 1 * l5 * l4 * l3 := by
    calc a3 * (1 * l5 * l4) + (a4 * (1 * l5) + (a5 * 1 + 1))
        ≤ a3 * (1 * l5 * l4) + 1 * l5 * l4 := Nat.add_le_add_left c4 _
      _ = (a3 + 1) * (1 * l5 * l4) := by ring
      _ ≤ l3 * (1 * l5 * l4) := Nat.mul_le_mul_right _ h3
      _ = 1 * l5 * l4 * l3 := by ring
  have c2 : a2 * (1 * l5 * l4 * l3) + (a3 * (1 * l5 * l4) + (a4 * (1 * l5) + (a5 * 1 + 1)))
      ≤ 1 * l5 * l4 * l3 * l2 := by
    calc a2 * (1 * l5 * l4 * l3) + (a3 * (1 * l5 * l4) + (a4 * (1 * l5) + (a5 * 1 + 1)))
        ≤ a2 * (1 * l5 * l4 * l3) + 1 * l5 * l4 * l3 := Nat.add_le_add_left c3 _
      _ = (a2 + 1) * (1 * l5 * l4 * l3) := by ring
      _ ≤ l2 * (1 * l5 * l4 * l3) := Nat.mul_le_mul_right _ h2
      _ = 1 * l5 * l4 * l3 * l2 := by ring
  have c1 : a1 * (1 * l5 * l4 * l3 * l2)
      + (a2 * (1 * l5 * l4 * l3) + (a3 * (1 * l5 * l4) + (a4 * (1 * l5) + (a5 * 1 + 1))))
      ≤ 1 * l5 * l4 * l3 * l2 * l1 := by
    calc a1 * (1 * l5 * l4 * l3 * l2)
        + (a2 * (1 * l5 * l4 * l3) + (a3 * (1 * l5 * l4) + (a4 * (1 * l5) + (a5 * 1 + 1))))
        ≤ a1 * (1 * l5 * l4 * l3 * l2) + 1 * l5 * l4 * l3 * l2 := Nat.add_le_add_left c2 _
      _ = (a1 + 1) * (1 * l5 * l4 * l3 * l2) := by ring
      _ ≤ l1 * (1 * l5 * l4 * l3 * l2) := Nat.mul_le_mul_right _ h1
      _ = 1 * l5 * l4 * l3 * l2 * l1 := by ring
  have hre : a1 * (1 * l5 * l4 * l3 * l2) + a2 * (1 * l5 * l4 * l3) + a3 * (1 * l5 * l4)
      + a4 * (1 * l5) + a5 * 1 + 1
      = a1 * (1 * l5 * l4 * l3 * l2)
        + (a2 * (1 * l5 * l4 * l3) + (a3 * (1 * l5 * l4) + (a4 * (1 * l5) + (a5 * 1 + 1)))) := by
    ring
  have hgoal : a1 * (1 * l5 * l4 * l3 * l2) + a2 * (1 * l5 * l4 * l3) + a3 * (1 * l5 * l4)
      + a4 * (1 * l5) + a5 * 1 + 1 ≤ 1 * l5 * l4 * l3 * l2 * l1 := by
    rw [hre]
    exact c1
  omega

/-- C10: index-bounds safety.  On any successfully built interpolator
(nonnegative tolerance, all axes of length at least 2): (a) whenever
`_locatePoint_` returns a nonnegative index for a declared dimension, that
index is at most `length - 2`; (b) consequently every flat-buffer offset
read by the blend routines — a base offset built from located indices
(at most `length-2` each) plus any choice of one extra step per declared
dimension, with dimensions past the rank contributing nothing — lies
strictly inside the value buffer. -/
theorem c10_bounds_safety (axes : List (List ℚ)) (vals : List ℚ) (tol : ℚ)
    (g : GridInterpolator) (htol : 0 ≤ tol) (hlen2 : ∀ ax ∈ axes, 2 ≤ ax.length)
    (hok : gridInit axes vals tol = .ok g) :
    (∀ k, k < g.ndim → ∀ c : Fl, 0 ≤ (locatePoint c (axisOf g k) (lenOf g k)).1 →
      (locatePoint c (axisOf g k) (lenOf g k)).1.toNat + 2 ≤ lenOf g k) ∧
    (∀ i1 i2 i3 i4 i5 b1 b2 b3 b4 b5 : ℕ, b1 ≤ 1 → b2 ≤ 1 → b3 ≤ 1 → b4 ≤ 1 → b5 ≤ 1 →
      i1 + 2 ≤ g.x_len →
      (2 ≤ g.ndim → i2 + 2 ≤ g.y_len) → (g.ndim < 2 → i2 = 0 ∧ b2 = 0) →
      (3 ≤ g.ndim → i3 + 2 ≤ g.z_len) → (g.ndim < 3 → i3 = 0 ∧ b3 = 0) →
      (4 ≤ g.ndim → i4 + 2 ≤ g.u_len) → (g.ndim < 4 → i4 = 0 ∧ b4 = 0) →
      (5 ≤ g.ndim → i5 + 2 ≤ g.v_len) → (g.ndim < 5 → i5 = 0 ∧ b5 = 0) →
      (i1 + b1) * g.x_stride + (i2 + b2) * g.y_stride + (i3 + b3) * g.z_stride
        + (i4 + b4) * g.u_stride + (i5 + b5) * g.v_stride < g.values.length) := by
  obtain ⟨hnd, hd1, hd5, hsi, haxf, hlenf, hpast, hv, hu, hz, hy, hx, hshape, hvals, _,
    _, _, _, _, _⟩ := gridInit_ok axes vals tol g hok
  constructor
  · intro k hk c h0
    have hk' : k < axes.length := by omega
    rw [haxf k hk', hlenf k hk'] at h0 ⊢
    have hp : (axes.getD k []).Pairwise (· < ·) :=
      (strictlyIncr_iff _).mp (hsi _ (getD_mem_of_lt axes k hk'))
    exact (locate_encode (axes.getD k []) tol htol hp
      (hlen2 _ (getD_mem_of_lt axes k hk')) c).2 h0
  · intro i1 i2 i3 i4 i5 b1 b2 b3 b4 b5 hb1 hb2 hb3 hb4 hb5 ha1 ha2 hz2 ha3 hz3 ha4 hz4
      ha5 hz5
    have hl1 : (i1 + b1) + 1 ≤ g.x_len := by omega
    have hl2 : (i2 + b2) + 1 ≤ g.y_len := by
      rcases Nat.lt_or_ge g.ndim 2 with h | h
      · obtain ⟨hiz, hbz⟩ := hz2 h
        have hone : lenOf g 1 = 1 := hpast 1 (by omega) (by omega)
        have : g.y_len = 1 := hone
        omega
      · have := ha2 h
        omega
    have hl3 : (i3 + b3) + 1 ≤ g.z_len := by
      rcases Nat.lt_or_ge g.ndim 3 with h | h
      · obtain ⟨hiz, hbz⟩ := hz3 h
        have hone : lenOf g 2 = 1 := hpast 2 (by omega) (by omega)
        have : g.z_len = 1 := hone
        omega
      · have := ha3 h
        omega
    have hl4 : (i4 + b4) + 1 ≤ g.u_len := by
      rcases Nat.lt_or_ge g.ndim 4 with h | h
      · obtain ⟨hiz, hbz⟩ := hz4 h
        have hone : lenOf g 3 = 1 := hpast 3 (by omega) (by omega)
        have : g.u_len = 1 := hone
        omega
      · have := ha4 h
        omega
    have hl5 : (i5 + b5) + 1 ≤ g.v_len := by
      rcases Nat.lt_or_ge g.ndim 5 with h | h
      · obtain ⟨hiz, hbz⟩ := hz5 h
        have hone : lenOf g 4 = 1 := hpast 4 (by omega) (by omega)
        have : g.v_len = 1 := hone
        omega
      · have := ha5 h
        omega
    have hlenv : g.values.length = g.x_stride * g.x_len := by
      rw [hvals]
      exact hshape
    rw [hlenv]
    exact radix_bound (i1 + b1) (i2 + b2) (i3 + b3) (i4 + b4) (i5 + b5)
      g.x_len g.y_len g.z_len g.u_len g.v_len
      g.x_stride g.y_stride g.z_stride g.u_stride g.v_stride
      hv hu hz hy hx hl1 hl2 hl3 hl4 hl5

/-- One-dimensional interpolator over axis `[0,1]` with values `[3,4]`,
used to witness C10. -/
def c10Grid : GridInterpolator :=
  ⟨1, 2, 1, 1, 1, 1, 1, 1, 1, 1, 1, [0, 1, 0], [], [], [], [], [3, 4]⟩

/-- Witness for C10 on the interpolator built from axis `[0,1]` and
values `[3,4]`: locating the maximum 1 gives index 0 (at most
`length - 2`), and the offsets `{0, 1}` read by `_interp1d` lie inside
the two stored values. -/
theorem c10_bounds_safety_witness :
    (locatePoint (Fl.fin 1) c10Grid.x_axis c10Grid.x_len).1.toNat + 2 ≤ c10Grid.x_len ∧
    (0 + 1) * c10Grid.x_stride + (0 + 0) * c10Grid.y_stride + (0 + 0) * c10Grid.z_stride
      + (0 + 0) * c10Grid.u_stride + (0 + 0) * c10Grid.v_stride < c10Grid.values.length := by
  have hok : gridInit [[0, 1]] [3, 4] (1/1000000) = .ok c10Grid := by
    norm_num [gridInit, gridInitCore, checkAxes, strictlyIncr, encodeAxis, withinTol, linspace, List.range,
      List.range.loop, abs_eq_max_neg, max_def, c10Grid]
  have hlen2 : ∀ ax ∈ [[(0 : ℚ), 1]], 2 ≤ ax.length := by
    intro ax hax
    simp only [List.mem_singleton] at hax
    rw [hax]
    norm_num
  have h := c10_bounds_safety [[0, 1]] [3, 4] (1/1000000) c10Grid (by norm_num) hlen2 hok
  constructor
  · exact h.1 0 (by norm_num [c10Grid]) (Fl.fin 1) (by
      norm_num [locatePoint, locFin, locUniform, ratTrunc, c10Grid, axisOf, lenOf])
  · exact h.2 0 0 0 0 0 1 0 0 0 0 (by norm_num) (by norm_num) (by norm_num) (by norm_num)
      (by norm_num) (by norm_num [c10Grid])
      (by intro hcon; norm_num [c10Grid] at hcon) (fun _ => ⟨rfl, rfl⟩)
      (by intro hcon; norm_num [c10Grid] at hcon) (fun _ => ⟨rfl, rfl⟩)
      (by intro hcon; norm_num [c10Grid] at hcon) (fun _ => ⟨rfl, rfl⟩)
      (by intro hcon; norm_num [c10Grid] at hcon) (fun _ => ⟨rfl, rfl⟩)
